import Mathlib

/-!
# Verification of the `wrfcloud` GeoJSON conversion core

Shallow embedding of `src/python/src/wrfcloud/runtime/tools/geojson.py`.

Modelling conventions:
* Python floats are modelled as exact rationals (`ℚ`).
* `int(x)` is truncation toward zero (`pyInt`).
* `round(x, 5)` is round-half-to-even at 5 decimal places (`pyRound5`).
* Python list indexing `l[i]` (which accepts negative indices that wrap from
  the end, and raises `IndexError` otherwise) is `pyIndex`, returning `none`
  for a raised `IndexError`.
* Fallible code (a Python expression that may raise) lives in `Option` /
  `Except`; `none` / `.error` is a raised exception.
* External capabilities (the matplotlib contouring call, the NetCDF/GRIB2
  readers, `json.loads`, the process pool) are modelled at the interface the
  core uses; each such definition carries a comment naming the Python
  behaviour it models.
-/

namespace WrfGeoJson

/-- A 2-D grid of values, as produced by the readers (a row-major list of
rows).  Used for the data grid and the latitude/longitude coordinate grids. -/
abbrev Grid2 := List (List ℚ)

/-- Python `int(x)` on a float: truncation toward zero. -/
def pyInt (q : ℚ) : ℤ := if 0 ≤ q then ⌊q⌋ else ⌈q⌉

/-- Round a rational to the nearest integer, ties to even — the rounding mode
of Python 3's built-in `round`. -/
def roundHalfEven (q : ℚ) : ℤ :=
  let f : ℤ := ⌊q⌋
  let r : ℚ := q - f
  if r < 1/2 then f
  else if 1/2 < r then f + 1
  else if Even f then f else f + 1

/-- Python `round(x, 5)`: round to 5 decimal places, ties to even. -/
def pyRound5 (q : ℚ) : ℚ := (roundHalfEven (q * 100000) : ℚ) / 100000

/-- Python list subscription `l[i]`: nonnegative indices from the front,
negative indices wrap from the end, anything else raises `IndexError`
(modelled as `none`). -/
def pyIndex {α : Type} (l : List α) (i : ℤ) : Option α :=
  if 0 ≤ i ∧ i < l.length then l.get? i.toNat
  else if -(l.length : ℤ) ≤ i ∧ i < 0 then l.get? (l.length + i).toNat
  else none

/-- Python `g[i][j]` on a nested list. -/
def pyIndex2 (g : Grid2) (i j : ℤ) : Option ℚ :=
  (pyIndex g i).bind fun row => pyIndex row j

/-- `GeoJson._grid_to_lonlat` (geojson.py lines 185-212): convert fractional
grid XY coordinates to longitude and latitude by a linear blend between the
two diagonal corners `(y1, x1)` and `(y2, x2)`, with the result rounded to 5
decimal places.  A raised `IndexError` is `none`. -/
def grid_to_lonlat (grid_lat grid_lon : Grid2) (x y : ℚ) : Option (ℚ × ℚ) :=
  let x1 : ℤ := pyInt x
  let y1 : ℤ := pyInt y
  let x2 : ℤ := if (x1 : ℚ) ≠ pyRound5 x then x1 + 1 else x1
  let y2 : ℤ := if (y1 : ℚ) ≠ pyRound5 y then y1 + 1 else y1
  (pyIndex2 grid_lat y1 x1).bind fun lat1 =>
  (pyIndex2 grid_lon y1 x1).bind fun lon1 =>
  (pyIndex2 grid_lat y2 x2).bind fun lat2 =>
  (pyIndex2 grid_lon y2 x2).bind fun lon2 =>
  let x_frac : ℚ := x - (x1 : ℚ)
  let y_frac : ℚ := y - (y1 : ℚ)
  let lat := lat1 + ((lat2 - lat1) * y_frac)
  let lon := lon1 + ((lon2 - lon1) * x_frac)
  some (pyRound5 lon, pyRound5 lat)

/-- A Python `for`-loop that applies `f` to every element in order and
collects the results, aborting at the first raised exception (`none`). -/
def mapOrFail {α β : Type} (f : α → Option β) : List α → Option (List β)
  | [] => some []
  | a :: rest => (f a).bind fun b => (mapOrFail f rest).map fun bs => b :: bs

/-- `GeoJson._polygon_to_coord_array` (geojson.py lines 214-223): map every
vertex of a grid-space polygon through `_grid_to_lonlat`, in order.  An
exception raised for any vertex aborts the whole loop (`none`). -/
def polygon_to_coord_array (grid_lat grid_lon : Grid2) (polygon : List (ℚ × ℚ)) :
    Option (List (ℚ × ℚ)) :=
  mapOrFail (fun point => grid_to_lonlat grid_lat grid_lon point.1 point.2) polygon

/-! ## Python `repr` of floats and `str` of nested lists

`GeoJson._polygon_and_holes_to_multi_polygon` renders coordinate lists with
Python's `str`, then `GeoJson.convert` parses the string back with
`json.loads`.  The coordinates reaching this code are outputs of
`round(_, 5)` (see `_grid_to_lonlat`), i.e. exact multiples of `1/100000`;
for those values Python's `repr` prints the plain fixed-point decimal form
modelled here (sign, integer part, `'.'`, fractional digits with trailing
zeros removed but at least one digit). -/

/-- The decimal digit character for `d < 10`. -/
def digitChar (d : ℕ) : Char := Char.ofNat (48 + d)

/-- Decimal digits of a natural number, most significant first. -/
def natDigits (n : ℕ) : List Char :=
  if n = 0 then ['0'] else (Nat.digits 10 n).reverse.map digitChar

/-- Remove trailing `'0'` characters. -/
def dropTrailingZeros (ds : List Char) : List Char :=
  (ds.reverse.dropWhile (fun c => c = '0')).reverse

/-- Left-pad with `'0'` characters to width `w`. -/
def padLeftZeros (ds : List Char) (w : ℕ) : List Char :=
  List.replicate (w - ds.length) '0' ++ ds

/-- The fractional digit block printed for a 5-decimal fraction numerator
`fr < 100000`: the 5-digit zero-padded form with trailing zeros removed,
but at least one digit (`repr(2.0)` is `"2.0"`). -/
def fracDigits5 (fr : ℕ) : List Char :=
  let ds := dropTrailingZeros (padLeftZeros (natDigits fr) 5)
  if ds = [] then ['0'] else ds

/-- Python `repr` of a float holding an exact multiple of `1/100000`. -/
def pyFloatRepr (q : ℚ) : String :=
  let sgn : List Char := if q < 0 then ['-'] else []
  let n : ℕ := (⌊|q| * 100000⌋).toNat
  ⟨sgn ++ natDigits (n / 100000) ++ ['.'] ++ fracDigits5 (n % 100000)⟩

/-- Python `str` of the two-element list `[point[0], point[1]]`. -/
def pyPointStr (p : ℚ × ℚ) : String :=
  "[" ++ pyFloatRepr p.1 ++ ", " ++ pyFloatRepr p.2 ++ "]"

/-- The body of Python `str` of a list: elements joined by `", "`. -/
def pyRingBody : List (ℚ × ℚ) → String
  | [] => ""
  | [p] => pyPointStr p
  | p :: tl => pyPointStr p ++ ", " ++ pyRingBody tl

/-- Python `str([[point[0], point[1]] for point in ring])`: elements joined
by `", "` inside square brackets. -/
def pyRingStr (ring : List (ℚ × ℚ)) : String :=
  "[" ++ pyRingBody ring ++ "]"

/-- The hole loop of `_polygon_and_holes_to_multi_polygon`:
`for hole in holes: mp_str += ',' + str([[point[0], point[1]] ...])`. -/
def holesBody : List (List (ℚ × ℚ)) → String
  | [] => ""
  | hole :: tl => "," ++ pyRingStr hole ++ holesBody tl

/-- `GeoJson._polygon_and_holes_to_multi_polygon` (geojson.py lines 225-236):
the outer polygon rendered with `str`, each hole appended after a bare comma,
all wrapped in one more pair of brackets. -/
def polygon_and_holes_to_multi_polygon (polygon : List (ℚ × ℚ))
    (holes : List (List (ℚ × ℚ))) : String :=
  "[" ++ pyRingStr polygon ++ holesBody holes ++ "]"

/-! ## A model of `json.loads` on the array/number fragment

The strings handed to `json.loads` by `GeoJson.convert` consist only of
JSON arrays and JSON numbers, so the model implements exactly that fragment
of the JSON grammar (RFC 8259): optional whitespace, `[`-delimited arrays
with `,` separators, and numbers with optional sign, fraction and exponent,
with the leading-zero restriction.  Parsing failure (`json.loads` raising
`JSONDecodeError`) is `none`. -/

/-- A parsed JSON value of the fragment used by the converter. -/
inductive JVal : Type where
  | num (q : ℚ) : JVal
  | arr (elems : List JVal) : JVal

/-- JSON whitespace. -/
def isJsonWs (c : Char) : Bool := c = ' ' ∨ c = '\t' ∨ c = '\n' ∨ c = '\r'

/-- Drop leading JSON whitespace. -/
def skipWs (cs : List Char) : List Char := cs.dropWhile isJsonWs

/-- Split off the leading run of decimal digit characters. -/
def takeDigits (cs : List Char) : List Char × List Char :=
  (cs.takeWhile Char.isDigit, cs.dropWhile Char.isDigit)

/-- Numeric value of a digit character. -/
def digitVal (c : Char) : ℕ := c.toNat - 48

/-- The natural number denoted by a digit string, most significant first. -/
def digitsToNat (ds : List Char) : ℕ :=
  ds.foldl (fun a c => a * 10 + digitVal c) 0

/-- Split a leading `-` sign off a JSON number. -/
def parseSign (cs : List Char) : Bool × List Char :=
  match cs with
  | '-' :: t => (true, t)
  | _ => (false, cs)

/-- Parse the optional fraction part of a JSON number: `.` followed by one or
more digits, scaling them below the integer part `ip`. -/
def parseFracPart (ip : ℚ) (cs : List Char) : Option (ℚ × List Char) :=
  match cs with
  | '.' :: t =>
    let fracSplit := takeDigits t
    if fracSplit.1 = [] then none
    else some (ip + (digitsToNat fracSplit.1 : ℚ) / (10 : ℚ) ^ fracSplit.1.length,
               fracSplit.2)
  | _ => some (ip, cs)

/-- Parse the digits of a JSON exponent after its optional sign, scaling the
value `v` by the signed power of ten. -/
def parseExpDigits (v : ℚ) (sgn : ℤ) (cs : List Char) : Option (ℚ × List Char) :=
  let expSplit := takeDigits cs
  if expSplit.1 = [] then none
  else some (v * (10 : ℚ) ^ (sgn * (digitsToNat expSplit.1 : ℤ)), expSplit.2)

/-- Parse the optional exponent part of a JSON number. -/
def parseExpPart (v : ℚ) (cs : List Char) : Option (ℚ × List Char) :=
  match cs with
  | 'e' :: '-' :: u => parseExpDigits v (-1) u
  | 'e' :: '+' :: u => parseExpDigits v 1 u
  | 'e' :: u => parseExpDigits v 1 u
  | 'E' :: '-' :: u => parseExpDigits v (-1) u
  | 'E' :: '+' :: u => parseExpDigits v 1 u
  | 'E' :: u => parseExpDigits v 1 u
  | _ => some (v, cs)

/-- Parse a JSON number: `-`? int frac? exp?, where int is `0` or a digit
string without a leading zero.  Returns the value and the unconsumed rest. -/
def parseJsonNumber (cs : List Char) : Option (ℚ × List Char) :=
  let signSplit := parseSign cs
  let intSplit := takeDigits signSplit.2
  if intSplit.1 = [] then none
  else if 1 < intSplit.1.length ∧ intSplit.1.headD '0' = '0' then none
  else
    match parseFracPart (digitsToNat intSplit.1 : ℚ) intSplit.2 with
    | none => none
    | some (v1, cs3) =>
      match parseExpPart v1 cs3 with
      | none => none
      | some (v2, rest) => some (if signSplit.1 then -v2 else v2, rest)

mutual

/-- Parse one JSON value (array or number) after optional whitespace.  The
fuel argument only forces termination; `parseJson` supplies enough for any
input. -/
def parseJsonValue : ℕ → List Char → Option (JVal × List Char)
  | 0, _ => none
  | fuel + 1, cs =>
    match skipWs cs with
    | '[' :: rest =>
      (match skipWs rest with
       | ']' :: rest2 => some (JVal.arr [], rest2)
       | _ =>
         (parseJsonValue fuel rest).bind fun vr =>
         (parseJsonElems fuel vr.2).bind fun er =>
         some (JVal.arr (vr.1 :: er.1), er.2))
    | cs1 => (parseJsonNumber cs1).map fun qr => (JVal.num qr.1, qr.2)

/-- Parse the continuation of an array body: either `,` followed by a value
and more elements, or the closing `]`. -/
def parseJsonElems : ℕ → List Char → Option (List JVal × List Char)
  | 0, _ => none
  | fuel + 1, cs =>
    match skipWs cs with
    | ',' :: rest =>
      (parseJsonValue fuel rest).bind fun vr =>
      (parseJsonElems fuel vr.2).bind fun er =>
      some (vr.1 :: er.1, er.2)
    | ']' :: rest => some ([], rest)
    | _ => none

end

/-- `json.loads`: a single JSON value surrounded by optional whitespace;
any other trailing input is an error. -/
def parseJson (s : String) : Option JVal :=
  (parseJsonValue (s.length + 1) s.data).bind fun vr =>
    if skipWs vr.2 = [] then some vr.1 else none

/-! ## Contour bands and the feature-building loop of `GeoJson.convert` -/

/-- One polygon in grid-index space: a list of fractional `(x, y)` vertices
(one entry of `path.to_polygons()`). -/
abbrev GridRing := List (ℚ × ℚ)

/-- The result of `path.to_polygons()` for one contour path: the outer
polygon first, the remaining entries are holes. -/
abbrev GridPath := List GridRing

/-- One contour level as consumed by the loop of `GeoJson.convert` lines
78-116: the level's hex fill color (`colors.rgb2hex(contours.tcolors[i][0])`)
and the paths of `contour_line.get_paths()`, each already decomposed by
`to_polygons()`.  This is the interface of the external matplotlib
contouring capability. -/
structure Band where
  color : String
  paths : List GridPath

/-- One GeoJSON feature as built by `GeoJson.convert` lines 102-113: the
`"fill"` property and the MultiPolygon `"coordinates"` entry, which is the
one-element list `[json.loads(polygon_string)]`. -/
structure Feature where
  fill : String
  coordinates : JVal

/-- The body of the inner path loop for one non-skipped path: remap the
outer polygon and the holes (`_polygon_to_coord_array`), render the
MultiPolygon coordinate string, parse it back with `json.loads`, and wrap
the result with the band color (geojson.py lines 92-113). -/
def mkFeatureOpt (glat glon : Grid2) (color : String) (outerPoly : GridRing)
    (holePolys : List GridRing) : Option Feature :=
  (polygon_to_coord_array glat glon outerPoly).bind fun outer =>
  (mapOrFail (polygon_to_coord_array glat glon) holePolys).bind fun holes =>
  (parseJson (polygon_and_holes_to_multi_polygon outer holes)).map fun coords =>
  { fill := color, coordinates := JVal.arr [coords] }

/-- The inner loop of `GeoJson.convert` (lines 83-116) over one contour
level's paths: a path with an empty `to_polygons()` list is skipped with
`continue`; otherwise a feature is appended.  A raised exception (`none`)
aborts the whole conversion. -/
def bandFeatures (glat glon : Grid2) (color : String) :
    List GridPath → Option (List Feature)
  | [] => some []
  | path :: rest =>
    if path.isEmpty then bandFeatures glat glon color rest
    else
      (mkFeatureOpt glat glon color (path.headD []) path.tail).bind fun feat =>
      (bandFeatures glat glon color rest).map fun feats => feat :: feats

/-- The outer loop of `GeoJson.convert` (lines 78-116) over the contour
levels, accumulating features in order. -/
def buildFeatures (glat glon : Grid2) : List Band → Option (List Feature)
  | [] => some []
  | band :: rest =>
    (bandFeatures glat glon band.color band.paths).bind fun fs =>
    (buildFeatures glat glon rest).map fun fs2 => fs ++ fs2

/-! ## Contour levels (`GeoJson.convert` lines 67-71) -/

/-- The length of Python `range(start, stop, step)` for `step ≠ 0`. -/
def pyRangeLen (start stop step : ℤ) : ℕ :=
  (⌈((stop : ℚ) - (start : ℚ)) / (step : ℚ)⌉).toNat

/-- Python `range(start, stop, step)` as a list; `step = 0` raises
`ValueError` (`none`). -/
def pyRange (start stop step : ℤ) : Option (List ℤ) :=
  if step = 0 then none
  else some ((List.range (pyRangeLen start stop step)).map fun i => start + i * step)

/-- `GeoJson.convert` lines 68-71: the contour levels, computed in
fixed-point tenths — `min`, `max` and the interval are each multiplied by 10
and truncated with `int`, an integer `range` is built, and each element is
divided back by 10. -/
def levels (value_min value_max contour_interval : ℚ) : Option (List ℚ) :=
  (pyRange (pyInt (value_min * 10)) (pyInt (value_max * 10))
      (pyInt (contour_interval * 10))).map
    (List.map fun i : ℤ => (i : ℚ) / 10)

/-! ## `GeoJson.convert` end to end -/

/-- What one call of `GeoJson.convert` observably does when it returns
normally: the dictionary it returns (for `out_file is None`), the files it
writes, and the error messages it logs. -/
structure ConvertOutcome where
  returned : Option (List Feature)
  written : List (String × List Feature)
  loggedErrors : List String

/-- The message logged by `GeoJson.convert` for an unrecognized file type
(geojson.py line 64). -/
def invalidTypeMsg (file_type : String) : String :=
  "Invalid file type: " ++ file_type ++ ".  Valid types are \"netcdf\" and \"grib2\"."

/-- `GeoJson.convert` (geojson.py lines 49-133).  The external reader
results and the matplotlib contouring capability are injected: `readGrib` /
`readNetcdf` are the outcomes of `_read_from_grib` / `_read_from_netcdf`
(`.error` is a raised reader exception), and `contourf` stands for
`pyplot.contourf` plus the color/path decomposition of the loop header.
A `.error` result is an exception escaping `convert`; `.ok` carries the
normal-return outcome.  Writing gzip-compressed bytes is modelled as
recording the `(path, features)` pair. -/
def convert (readGrib readNetcdf : Except String (Grid2 × Grid2 × Grid2))
    (contourf : Grid2 → List ℚ → String → List Band)
    (value_min value_max contour_interval : ℚ) (palette : String)
    (file_type : String) (out_file : Option String) :
    Except String ConvertOutcome :=
  if file_type = "grib2" ∨ file_type = "netcdf" then
    match (if file_type = "grib2" then readGrib else readNetcdf) with
    | .error e => .error e
    | .ok (grid, glat, glon) =>
      match levels value_min value_max contour_interval with
      | none => .error "ValueError: range() arg 3 must not be zero"
      | some lvls =>
        match buildFeatures glat glon (contourf grid lvls palette) with
        | none => .error "IndexError"
        | some feats =>
          match out_file with
          | none => .ok ⟨some feats, [], []⟩
          | some f => .ok ⟨none, [(f, feats)], []⟩
  else
    .ok ⟨none, [], [invalidTypeMsg file_type]⟩

/-! ## Batch mode (`_automate_products`, geojson.py lines 296-325) -/

/-- The result-collection loop `for future in futures: future.result()` of
`_automate_products`: given the outcome of every dispatched task (all tasks
are submitted to the pool before this loop starts), `future.result()`
re-raises the task's exception, so the loop stops at the first failed task;
otherwise it returns normally. -/
def collect_results {ε α : Type} : List (Except ε α) → Except ε Unit
  | [] => .ok ()
  | .error e :: _ => .error e
  | .ok _ :: rest => collect_results rest

/-! ## The z-level selection of the readers (geojson.py lines 135-168) -/

/-- Python truthiness of the optional `z_level` argument: `None` and `0`
are falsy, every other integer is truthy. -/
def pyTruthyInt : Option ℤ → Bool
  | none => false
  | some v => v != 0

/-- The slicing expression of `_read_from_netcdf` (line 145):
`data[time_index][self.z_level] if self.z_level else data[time_index]` with
`time_index = 0`, for a 3-D variable laid out time-major.  The two branches
produce different shapes, modelled as a sum: `.inl` is the unsliced field at
time 0, `.inr` a single vertical level of it. -/
def read_from_netcdf_zslice {γ : Type} (data : List (List γ)) (z_level : Option ℤ) :
    Option (List γ ⊕ γ) :=
  if pyTruthyInt z_level then
    (pyIndex data 0).bind fun atTime => (pyIndex atTime (z_level.getD 0)).map Sum.inr
  else
    (pyIndex data 0).map Sum.inl

/-- The message selection of `_read_from_grib` (line 160):
`wrf.select(shortName=self.variable)[self.z_level if self.z_level else 0]`. -/
def read_from_grib_select {γ : Type} (msgs : List γ) (z_level : Option ℤ) : Option γ :=
  pyIndex msgs (if pyTruthyInt z_level then z_level.getD 0 else 0)

/-! ## Auxiliary predicates used by the theorems -/

/-- The grid `g` is a rectangular `rows × cols` array — the shape guaranteed
by the readers (`XLAT`/`XLONG` and the data variable share one shape). -/
def RectGrid (g : Grid2) (rows cols : ℕ) : Prop :=
  g.length = rows ∧ ∀ row ∈ g, row.length = cols

/-- Written from the words of claim C4: the diagonal linear blend
`(round(lon1 + (lon2 - lon1) * x_frac, 5), round(lat1 + (lat2 - lat1) * y_frac, 5))`
with `x1 = floor(x)`, `x2 = x1 + 1` unless `x` is (within the 5-decimal
rounding tolerance) already the integer `x1`, corner values read at only the
two diagonal corners `(y1, x1)` and `(y2, x2)`, and `x_frac = x - x1`,
`y_frac = y - y1`. -/
def lonlat_spec_formula (glat glon : Grid2) (x y : ℚ) : ℚ × ℚ :=
  let x1 : ℤ := ⌊x⌋
  let y1 : ℤ := ⌊y⌋
  let x2 : ℤ := if pyRound5 x = (x1 : ℚ) then x1 else x1 + 1
  let y2 : ℤ := if pyRound5 y = (y1 : ℚ) then y1 else y1 + 1
  let lat1 := (glat.getD y1.toNat []).getD x1.toNat 0
  let lon1 := (glon.getD y1.toNat []).getD x1.toNat 0
  let lat2 := (glat.getD y2.toNat []).getD x2.toNat 0
  let lon2 := (glon.getD y2.toNat []).getD x2.toNat 0
  (pyRound5 (lon1 + (lon2 - lon1) * (x - (x1 : ℚ))),
   pyRound5 (lat1 + (lat2 - lat1) * (y - (y1 : ℚ))))

/-! ## Helper lemmas -/

theorem mapOrFail_append {α β : Type} (f : α → Option β) (l₁ l₂ : List α) :
    mapOrFail f (l₁ ++ l₂) =
      (mapOrFail f l₁).bind fun b₁ => (mapOrFail f l₂).map fun b₂ => b₁ ++ b₂ := by
  induction l₁ with
  | nil =>
    simp only [List.nil_append, mapOrFail, Option.some_bind]
    cases mapOrFail f l₂ <;> rfl
  | cons a rest ih =>
    simp only [List.cons_append, mapOrFail, List.append_eq]
    rw [ih]
    cases hfa : f a with
    | none => rfl
    | some b =>
      cases hrest : mapOrFail f rest with
      | none => rfl
      | some bs =>
        simp only [Option.some_bind, Option.map_some]
        cases mapOrFail f l₂ <;> rfl

theorem mapOrFail_length {α β : Type} (f : α → Option β) (l : List α) (out : List β)
    (h : mapOrFail f l = some out) : out.length = l.length := by
  induction l generalizing out with
  | nil => simp [mapOrFail] at h; simp [← h]
  | cons a rest ih =>
    simp only [mapOrFail] at h
    cases hfa : f a with
    | none => rw [hfa] at h; simp at h
    | some b =>
      rw [hfa] at h
      cases hrest : mapOrFail f rest with
      | none => rw [hrest] at h; simp at h
      | some bs =>
        rw [hrest] at h
        simp at h
        simp [← h, ih bs hrest]

theorem mapOrFail_get {α β : Type} (f : α → Option β) :
    ∀ (l : List α) (out : List β), mapOrFail f l = some out →
      ∀ (i : ℕ) (hi : i < l.length) (ho : i < out.length),
        f (l.get ⟨i, hi⟩) = some (out.get ⟨i, ho⟩)
  | [], _, _, _, hi, _ => absurd hi (by simp)
  | a :: rest, out, h, i, hi, ho => by
    simp only [mapOrFail] at h
    cases hfa : f a with
    | none => rw [hfa] at h; simp at h
    | some b =>
      rw [hfa] at h
      cases hrest : mapOrFail f rest with
      | none => rw [hrest] at h; simp at h
      | some bs =>
        rw [hrest] at h
        simp at h
        subst h
        cases i with
        | zero => simpa using hfa
        | succ j =>
          exact mapOrFail_get f rest bs hrest j (by simpa using hi) (by simpa using ho)

theorem bandFeatures_eq (glat glon : Grid2) (color : String) (paths : List GridPath) :
    bandFeatures glat glon color paths =
      mapOrFail (fun path => mkFeatureOpt glat glon color (path.headD []) path.tail)
        (paths.filter fun path => !path.isEmpty) := by
  induction paths with
  | nil => rfl
  | cons path rest ih =>
    by_cases hp : path.isEmpty
    · simp [bandFeatures, hp, List.filter, ih]
    · simp [bandFeatures, hp, List.filter, ih, mapOrFail]

theorem roundHalfEven_intCast (n : ℤ) : roundHalfEven (n : ℚ) = n := by
  rw [roundHalfEven]
  norm_num

theorem pyRound5_of_mul (q : ℚ) (k : ℤ) (h : q * 100000 = (k : ℚ)) : pyRound5 q = q := by
  have hq : q = (k : ℚ) / 100000 := by
    field_simp
    linarith [h]
  rw [pyRound5, h, roundHalfEven_intCast, ← hq]

theorem pyRound5_intCast (n : ℤ) : pyRound5 (n : ℚ) = n :=
  pyRound5_of_mul _ (n * 100000) (by push_cast; ring)

theorem pyInt_eq_floor (x : ℚ) (hx : 0 ≤ x) : pyInt x = ⌊x⌋ := if_pos hx

theorem pyIndex_none_upper {α : Type} (l : List α) (i : ℤ) (h : (l.length : ℤ) ≤ i) :
    pyIndex l i = none := by
  rw [pyIndex, if_neg, if_neg] <;> rintro ⟨h1, h2⟩ <;> omega

theorem pyIndex_mem {α : Type} (l : List α) (i : ℤ) (a : α) (h : pyIndex l i = some a) :
    a ∈ l := by
  rw [pyIndex] at h
  split_ifs at h <;> exact List.get?_mem h

theorem pyIndex_eq_getD {α : Type} (l : List α) (i : ℤ) (d : α) (h0 : 0 ≤ i)
    (h1 : i < (l.length : ℤ)) : pyIndex l i = some (l.getD i.toNat d) := by
  have hn : i.toNat < l.length := by omega
  rw [pyIndex, if_pos ⟨h0, h1⟩, List.getD_eq_getElem l d hn, List.get?_eq_getElem?,
    List.getElem?_eq_getElem hn]

theorem pyIndex2_eq_getD (g : Grid2) (rows cols : ℕ) (hg : RectGrid g rows cols)
    (i j : ℤ) (hi0 : 0 ≤ i) (hi1 : i < (rows : ℤ)) (hj0 : 0 ≤ j) (hj1 : j < (cols : ℤ)) :
    pyIndex2 g i j = some ((g.getD i.toNat []).getD j.toNat 0) := by
  have hglen : i < (g.length : ℤ) := by rw [hg.1]; exact_mod_cast hi1
  have hrow : pyIndex g i = some (g.getD i.toNat []) := pyIndex_eq_getD g i [] hi0 hglen
  have hn : i.toNat < g.length := by omega
  have hmem : g.getD i.toNat [] ∈ g := by
    rw [List.getD_eq_getElem g [] hn]
    exact List.getElem_mem hn
  have hlen : (g.getD i.toNat []).length = cols := hg.2 _ hmem
  rw [pyIndex2, hrow, Option.some_bind]
  exact pyIndex_eq_getD _ j 0 hj0 (by rw [hlen]; exact_mod_cast hj1)

theorem grid_to_lonlat_eval (glat glon : Grid2) (x y : ℚ) (x1 y1 x2 y2 : ℤ)
    (lat1 lon1 lat2 lon2 : ℚ)
    (hx1 : pyInt x = x1) (hy1 : pyInt y = y1)
    (hx2 : (if (x1 : ℚ) ≠ pyRound5 x then x1 + 1 else x1) = x2)
    (hy2 : (if (y1 : ℚ) ≠ pyRound5 y then y1 + 1 else y1) = y2)
    (h1 : pyIndex2 glat y1 x1 = some lat1) (h2 : pyIndex2 glon y1 x1 = some lon1)
    (h3 : pyIndex2 glat y2 x2 = some lat2) (h4 : pyIndex2 glon y2 x2 = some lon2) :
    grid_to_lonlat glat glon x y =
      some (pyRound5 (lon1 + ((lon2 - lon1) * (x - (x1 : ℚ)))),
            pyRound5 (lat1 + ((lat2 - lat1) * (y - (y1 : ℚ))))) := by
  rw [grid_to_lonlat]
  rw [hx1, hy1, hx2, hy2, h1, h2, h3, h4]
  rfl

/-! ## The claims -/

/-- Claim C6: for every conversion the feature list of the output
`FeatureCollection` is exactly the per-path feature construction applied to
the non-degenerate paths (those with an outer polygon) of every band, in
order: outer loop over the bands in ascending level order, inner loop over
each band's paths in the order the contouring capability returned them, each
feature carrying the fill color of its band (the `fill := color` field of
`mkFeatureOpt`); in particular, when the conversion completes, the feature
count is the total number of non-degenerate paths. -/
theorem convert_features_count_order_color (glat glon : Grid2) (bands : List Band) :
    buildFeatures glat glon bands =
      mapOrFail (fun cp => mkFeatureOpt glat glon cp.1 (cp.2.headD []) cp.2.tail)
        (bands.flatMap fun band =>
          (band.paths.filter fun path => !path.isEmpty).map fun path =>
            (band.color, path)) ∧
    ∀ fs, buildFeatures glat glon bands = some fs →
      fs.length =
        (bands.map fun band => (band.paths.filter fun path => !path.isEmpty).length).sum := by
  have main : ∀ bs : List Band, buildFeatures glat glon bs =
      mapOrFail (fun cp => mkFeatureOpt glat glon cp.1 (cp.2.headD []) cp.2.tail)
        (bs.flatMap fun band =>
          (band.paths.filter fun path => !path.isEmpty).map fun path =>
            (band.color, path)) := by
    intro bs
    induction bs with
    | nil => rfl
    | cons band rest ih =>
      simp only [buildFeatures, List.flatMap_cons, mapOrFail_append, bandFeatures_eq, ih]
      have comp : mapOrFail (fun cp => mkFeatureOpt glat glon cp.1 (cp.2.headD []) cp.2.tail)
          ((band.paths.filter fun path => !path.isEmpty).map fun path => (band.color, path)) =
          mapOrFail (fun path => mkFeatureOpt glat glon band.color (path.headD []) path.tail)
            (band.paths.filter fun path => !path.isEmpty) := by
        generalize band.paths.filter (fun path => !path.isEmpty) = ps
        induction ps with
        | nil => rfl
        | cons p ps ihp =>
          simp only [List.map_cons, mapOrFail]
          rw [ihp]
      rw [comp]
  refine ⟨main bands, fun fs hfs => ?_⟩
  rw [main bands] at hfs
  have hlen := mapOrFail_length _ _ _ hfs
  rw [hlen]
  simp only [List.length_flatMap]
  congr 1
  apply List.map_congr_left
  intro band _
  simp [Function.comp]

/-- Claim C7: the ring-to-geographic-ring transform maps every vertex through
`_grid_to_lonlat` preserving count and order — when it completes, the output
has exactly the length of the input and its `i`-th point is the mapped `i`-th
input point — and the empty ring maps to the empty ring. -/
theorem ring_remap_preserves_count_and_order (glat glon : Grid2)
    (ring out : List (ℚ × ℚ)) (h : polygon_to_coord_array glat glon ring = some out) :
    out.length = ring.length ∧
    (∀ i (hi : i < ring.length) (ho : i < out.length),
      grid_to_lonlat glat glon (ring.get ⟨i, hi⟩).1 (ring.get ⟨i, hi⟩).2 =
        some (out.get ⟨i, ho⟩)) ∧
    polygon_to_coord_array glat glon [] = some [] := by
  refine ⟨mapOrFail_length _ _ _ h, fun i hi ho => mapOrFail_get _ _ _ h i hi ho, rfl⟩

/-- Claim C9: passing `z_level = 0` behaves exactly like passing no z-level:
both readers test the z-level for truthiness, so the NetCDF reader returns
the unsliced field at time index 0 (`Sum.inl`, not vertical level 0), and
the GRIB2 reader selects message index 0, exactly as for `z_level = None`. -/
theorem z_level_zero_behaves_as_none {γ : Type} (data : List (List γ)) (msgs : List γ) :
    read_from_netcdf_zslice data (some 0) = read_from_netcdf_zslice data none ∧
    read_from_netcdf_zslice data (some 0) = (pyIndex data 0).map Sum.inl ∧
    read_from_grib_select msgs (some 0) = read_from_grib_select msgs none ∧
    read_from_grib_select msgs (some 0) = pyIndex msgs 0 :=
  ⟨rfl, rfl, rfl, rfl⟩

/-- Claim C8: for every file type other than `"grib2"` and `"netcdf"`,
`convert` returns normally (no exception escapes to the batch) with no
dictionary returned, no file written, and the invalid-file-type error
logged for that task. -/
theorem invalid_file_type_no_output_error_logged
    (readGrib readNetcdf : Except String (Grid2 × Grid2 × Grid2))
    (contourf : Grid2 → List ℚ → String → List Band)
    (value_min value_max contour_interval : ℚ) (palette : String)
    (file_type : String) (out_file : Option String)
    (hg : file_type ≠ "grib2") (hn : file_type ≠ "netcdf") :
    convert readGrib readNetcdf contourf value_min value_max contour_interval palette
      file_type out_file = .ok ⟨none, [], [invalidTypeMsg file_type]⟩ := by
  simp [convert, hg, hn]

/-- Witness for C8 at the concrete file type `"csv"`. -/
theorem invalid_file_type_no_output_error_logged_witness :
    convert (.error "ReadError") (.error "ReadError") (fun _ _ _ => []) 0 2 (1/2)
      "viridis" "csv" (some "out.geojson.gz") =
      .ok ⟨none, [], [invalidTypeMsg "csv"]⟩ :=
  invalid_file_type_no_output_error_logged _ _ _ _ _ _ _ _ _
    (by decide) (by decide)

/-- Claim C1 (amended): in batch mode every task is dispatched to the pool
before any result is collected, so one task's failure does not cancel or
prevent its siblings' execution; but the result-collection loop of
`_automate_products` re-raises the first failed task's error — the batch
call fails with that single error, and the outcomes of all tasks after the
first failure (successes or further failures) are never reported. -/
theorem batch_first_failure_aborts_collection (pre post : List (Except String Unit))
    (e : String) (hpre : ∀ r ∈ pre, r = .ok ()) :
    collect_results (pre ++ .error e :: post) = .error e := by
  induction pre with
  | nil => rfl
  | cons r rest ih =>
    have hr : r = .ok () := hpre r (by simp)
    subst hr
    exact ih fun x hx => hpre x (by simp [hx])

/-- Witness for C1's amended claim: one successful task before the failure,
one after. -/
theorem batch_first_failure_aborts_collection_witness :
    collect_results [Except.ok (), Except.error "ReadError", Except.ok ()] =
      Except.error "ReadError" := by
  have h := batch_first_failure_aborts_collection [Except.ok ()] [Except.ok ()]
    "ReadError" (by simp)
  simpa using h

/-- Counterexample for C1 as stated: with six dispatched tasks of which the
third fails with a ReadError, the batch run raises that error instead of
reporting five successes and one failure distinctly; and when a second task
also fails (a WriteError), only the first error is ever surfaced. -/
theorem batch_counterexample_first_error_only :
    collect_results [Except.ok (), Except.ok (), Except.error "ReadError",
      Except.ok (), Except.ok (), Except.ok ()] = Except.error "ReadError" ∧
    collect_results [Except.ok (), Except.error "ReadError", Except.ok (),
      Except.error "WriteError", Except.ok (), Except.ok ()] =
      Except.error "ReadError" :=
  ⟨rfl, rfl⟩

/-- Claim C5: the contour threshold list is computed in fixed-point tenths
(min, max and interval each multiplied by 10 and truncated with `int`, an
integer `range` built, each element divided back by 10), so every level is
an integer multiple of one tenth; in particular for min = 0.0, max = 2.0,
interval = 0.5 the levels are exactly [0.0, 0.5, 1.0, 1.5]. -/
theorem levels_fixed_point_tenths :
    levels 0 2 (1/2) = some [0, 1/2, 1, 3/2] ∧
    ∀ value_min value_max contour_interval : ℚ,
      ∀ l ∈ (levels value_min value_max contour_interval).getD [],
        ∃ k : ℤ, l = (k : ℚ) / 10 := by
  constructor
  · have h1 : pyInt ((0 : ℚ) * 10) = 0 := by norm_num [pyInt]
    have h2 : pyInt ((2 : ℚ) * 10) = 20 := by norm_num [pyInt]
    have h3 : pyInt ((1/2 : ℚ) * 10) = 5 := by norm_num [pyInt]
    have h4 : pyRangeLen 0 20 5 = 4 := by
      have : ((20 : ℚ) - 0) / 5 = 4 := by norm_num
      rw [pyRangeLen]
      push_cast
      rw [this]
      norm_num
      rfl
    simp only [levels, h1, h2, h3, pyRange, h4]
    norm_num [List.range_succ]
  · intro value_min value_max contour_interval l hl
    rcases hr : pyRange (pyInt (value_min * 10)) (pyInt (value_max * 10))
        (pyInt (contour_interval * 10)) with _ | ls
    · simp [levels, hr] at hl
    · simp only [levels, hr, Option.map_some, Option.getD_some] at hl
      obtain ⟨i, _, rfl⟩ := List.mem_map.mp hl
      exact ⟨i, rfl⟩

/-- Claim C2 (amended): out-of-bounds grid coordinates are rejected only
when the derived integer indices fall outside Python's index range: for a
rectangular latitude grid, any `x` at or beyond the column count — or `y` at
or beyond the row count — with both coordinates nonnegative makes the mapper
raise an `IndexError`, and no coordinate pair is returned.  Out-of-bounds
coordinates below zero are not rejected: `x` in `(-1, 0)` is silently
extrapolated (`int()` truncates toward zero), and `x ≤ -1` silently wraps to
cells at the opposite edge of the grid through Python negative indexing
(see the counterexample). -/
theorem grid_to_lonlat_upper_out_of_bounds (glat glon : Grid2) (rows cols : ℕ)
    (x y : ℚ) (hlat : RectGrid glat rows cols) (hx : 0 ≤ x) (hy : 0 ≤ y)
    (hout : (cols : ℚ) ≤ x ∨ (rows : ℚ) ≤ y) :
    grid_to_lonlat glat glon x y = none := by
  have hfirst : pyIndex2 glat (pyInt y) (pyInt x) = none := by
    rw [pyInt_eq_floor x hx, pyInt_eq_floor y hy]
    rcases hout with hcx | hry
    · have hx1 : (cols : ℤ) ≤ ⌊x⌋ := Int.le_floor.mpr (by exact_mod_cast hcx)
      rw [pyIndex2]
      cases hrow : pyIndex glat ⌊y⌋ with
      | none => rfl
      | some row =>
        have hlen : row.length = cols := hlat.2 row (pyIndex_mem _ _ _ hrow)
        rw [Option.some_bind]
        exact pyIndex_none_upper row ⌊x⌋ (by rw [hlen]; exact_mod_cast hx1)
    · have hy1 : (rows : ℤ) ≤ ⌊y⌋ := Int.le_floor.mpr (by exact_mod_cast hry)
      rw [pyIndex2, pyIndex_none_upper glat ⌊y⌋ (by rw [hlat.1]; exact_mod_cast hy1)]
      rfl
  rw [grid_to_lonlat, hfirst]
  rfl

/-- Counterexample for C2 as stated: on a 2×2 grid (extent `[0,1] × [0,1]`),
the out-of-bounds call `(x, y) = (-0.5, 0)` is not rejected — `int(-0.5)`
truncates to 0 and the mapper silently extrapolates, returning a coordinate
pair — and `(x, y) = (-1.5, 0)` silently wraps to the opposite edge of the
grid (columns -1 and 0) and also returns a pair. -/
theorem grid_to_lonlat_negative_oob_returns_pair :
    grid_to_lonlat [[10, 10], [11, 11]] [[20, 21], [20, 21]] (-1/2) 0 =
      some (39/2, 10) ∧
    grid_to_lonlat [[10, 10], [11, 11]] [[20, 21], [20, 21]] (-3/2) 0 =
      some (43/2, 10) := by
  constructor
  · have hx1 : pyInt (-1/2 : ℚ) = 0 := by norm_num [pyInt]
    have hy1 : pyInt (0 : ℚ) = 0 := by norm_num [pyInt]
    have hrx : pyRound5 (-1/2 : ℚ) = -1/2 := pyRound5_of_mul _ (-50000) (by norm_num)
    have hry : pyRound5 (0 : ℚ) = 0 := pyRound5_of_mul _ 0 (by norm_num)
    rw [grid_to_lonlat_eval [[10,10],[11,11]] [[20,21],[20,21]] (-1/2) 0 0 0 1 0
      10 20 10 21 hx1 hy1 (by rw [hrx]; norm_num) (by rw [hry]; norm_num)
      (by norm_num [pyIndex2, pyIndex]) (by norm_num [pyIndex2, pyIndex])
      (by norm_num [pyIndex2, pyIndex]) (by norm_num [pyIndex2, pyIndex])]
    have e1 : (20 : ℚ) + ((21 - 20) * ((-1/2) - ((0 : ℤ) : ℚ))) = 39/2 := by norm_num
    have e2 : (10 : ℚ) + ((10 - 10) * ((0 : ℚ) - ((0 : ℤ) : ℚ))) = 10 := by norm_num
    rw [e1, e2, pyRound5_of_mul (39/2) 1950000 (by norm_num),
      pyRound5_of_mul 10 1000000 (by norm_num)]
  · have hx1 : pyInt (-3/2 : ℚ) = -1 := by
      rw [pyInt, if_neg (by norm_num)]
      rw [show ⌈(-3/2 : ℚ)⌉ = -1 from Int.ceil_eq_iff.mpr (by norm_num)]
    have hy1 : pyInt (0 : ℚ) = 0 := by norm_num [pyInt]
    have hrx : pyRound5 (-3/2 : ℚ) = -3/2 := pyRound5_of_mul _ (-150000) (by norm_num)
    have hry : pyRound5 (0 : ℚ) = 0 := pyRound5_of_mul _ 0 (by norm_num)
    rw [grid_to_lonlat_eval [[10,10],[11,11]] [[20,21],[20,21]] (-3/2) 0 (-1) 0 0 0
      10 21 10 20 hx1 hy1 (by rw [hrx]; norm_num) (by rw [hry]; norm_num)
      (by norm_num [pyIndex2, pyIndex]) (by norm_num [pyIndex2, pyIndex])
      (by norm_num [pyIndex2, pyIndex]) (by norm_num [pyIndex2, pyIndex])]
    have e1 : (21 : ℚ) + ((20 - 21) * ((-3/2) - ((-1 : ℤ) : ℚ))) = 43/2 := by norm_num
    have e2 : (10 : ℚ) + ((10 - 10) * ((0 : ℚ) - ((0 : ℤ) : ℚ))) = 10 := by norm_num
    rw [e1, e2, pyRound5_of_mul (43/2) 2150000 (by norm_num),
      pyRound5_of_mul 10 1000000 (by norm_num)]

/-- Witness for C2's amended claim: on the 2×2 grid, `x = 5` (beyond the
column count) raises an IndexError — no pair is returned. -/
theorem grid_to_lonlat_upper_out_of_bounds_witness :
    grid_to_lonlat [[10, 10], [11, 11]] [[20, 21], [20, 21]] 5 0 = none :=
  grid_to_lonlat_upper_out_of_bounds [[10, 10], [11, 11]] [[20, 21], [20, 21]] 2 2 5 0
    (by constructor
        · rfl
        · intro row hr
          simp only [List.mem_cons, List.not_mem_nil, or_false] at hr
          rcases hr with h | h <;> subst h <;> rfl)
    (by norm_num) (by norm_num) (Or.inl (by norm_num))

theorem lonlat_spec_formula_eval (glat glon : Grid2) (x y : ℚ) (x1 y1 x2 y2 : ℤ)
    (lat1 lon1 lat2 lon2 : ℚ)
    (hx1 : ⌊x⌋ = x1) (hy1 : ⌊y⌋ = y1)
    (hx2 : (if pyRound5 x = (x1 : ℚ) then x1 else x1 + 1) = x2)
    (hy2 : (if pyRound5 y = (y1 : ℚ) then y1 else y1 + 1) = y2)
    (h1 : (glat.getD y1.toNat []).getD x1.toNat 0 = lat1)
    (h2 : (glon.getD y1.toNat []).getD x1.toNat 0 = lon1)
    (h3 : (glat.getD y2.toNat []).getD x2.toNat 0 = lat2)
    (h4 : (glon.getD y2.toNat []).getD x2.toNat 0 = lon2) :
    lonlat_spec_formula glat glon x y =
      (pyRound5 (lon1 + ((lon2 - lon1) * (x - (x1 : ℚ)))),
       pyRound5 (lat1 + ((lat2 - lat1) * (y - (y1 : ℚ))))) := by
  rw [lonlat_spec_formula]
  rw [hx1, hy1, hx2, hy2, h1, h2, h3, h4]

/-- Claim C4: for every in-bounds fractional grid coordinate — rectangular
`rows × cols` coordinate grids, `0 ≤ x ≤ cols - 1`, `0 ≤ y ≤ rows - 1` —
the mapper returns exactly the claim's diagonal linear blend
`(round(lon1 + (lon2 - lon1) * x_frac, 5), round(lat1 + (lat2 - lat1) * y_frac, 5))`
with `x1 = floor(x)`, `x2 = x1 + 1` unless `x` is (within the 5-decimal
rounding tolerance) already the integer `x1` in which case `x2 = x1` (same
for `y`), the corner values read only at the two diagonal corners
`(y1, x1)` and `(y2, x2)` (`lonlat_spec_formula`). -/
theorem grid_to_lonlat_in_bounds_formula (glat glon : Grid2) (rows cols : ℕ)
    (x y : ℚ) (hlat : RectGrid glat rows cols) (hlon : RectGrid glon rows cols)
    (hx0 : 0 ≤ x) (hxu : x ≤ (cols : ℚ) - 1) (hy0 : 0 ≤ y) (hyu : y ≤ (rows : ℚ) - 1) :
    grid_to_lonlat glat glon x y = some (lonlat_spec_formula glat glon x y) := by
  have hx1l : (0 : ℤ) ≤ ⌊x⌋ := Int.le_floor.mpr (by exact_mod_cast hx0)
  have hy1l : (0 : ℤ) ≤ ⌊y⌋ := Int.le_floor.mpr (by exact_mod_cast hy0)
  have hx1u : ⌊x⌋ ≤ (cols : ℤ) - 1 := by
    have h := Int.floor_le_floor hxu
    rwa [show ((cols : ℚ) - 1) = (((cols : ℤ) - 1 : ℤ) : ℚ) by push_cast; ring,
      Int.floor_intCast] at h
  have hy1u : ⌊y⌋ ≤ (rows : ℤ) - 1 := by
    have h := Int.floor_le_floor hyu
    rwa [show ((rows : ℚ) - 1) = (((rows : ℤ) - 1 : ℤ) : ℚ) by push_cast; ring,
      Int.floor_intCast] at h
  have hedge : ∀ z : ℚ, ∀ n : ℕ, 0 ≤ z → z ≤ (n : ℚ) - 1 → ¬ pyRound5 z = ((⌊z⌋ : ℤ) : ℚ) →
      ⌊z⌋ + 1 ≤ (n : ℤ) - 1 := by
    intro z n hz0 hzu hzr
    by_contra hcon
    have hzl : (0 : ℤ) ≤ ⌊z⌋ := Int.le_floor.mpr (by exact_mod_cast hz0)
    have hz1u : ⌊z⌋ ≤ (n : ℤ) - 1 := by
      have h := Int.floor_le_floor hzu
      rwa [show ((n : ℚ) - 1) = (((n : ℤ) - 1 : ℤ) : ℚ) by push_cast; ring,
        Int.floor_intCast] at h
    have heq : ⌊z⌋ = (n : ℤ) - 1 := by omega
    have hzel : ((⌊z⌋ : ℤ) : ℚ) ≤ z := Int.floor_le z
    have hzeu : z ≤ ((⌊z⌋ : ℤ) : ℚ) := by
      rw [heq]
      push_cast
      exact_mod_cast hzu
    have hzz : z = ((⌊z⌋ : ℤ) : ℚ) := le_antisymm hzeu hzel
    have hfin : pyRound5 z = ((⌊z⌋ : ℤ) : ℚ) := by
      conv_lhs => rw [hzz]
      exact pyRound5_intCast ⌊z⌋
    exact hzr hfin
  by_cases hcx : pyRound5 x = ((⌊x⌋ : ℤ) : ℚ) <;>
    by_cases hcy : pyRound5 y = ((⌊y⌋ : ℤ) : ℚ)
  case pos =>
    rw [grid_to_lonlat_eval glat glon x y ⌊x⌋ ⌊y⌋ ⌊x⌋ ⌊y⌋ _ _ _ _
      (pyInt_eq_floor x hx0) (pyInt_eq_floor y hy0)
      (by simp [hcx]) (by simp [hcy])
      (pyIndex2_eq_getD glat rows cols hlat ⌊y⌋ ⌊x⌋ hy1l (by omega) hx1l (by omega))
      (pyIndex2_eq_getD glon rows cols hlon ⌊y⌋ ⌊x⌋ hy1l (by omega) hx1l (by omega))
      (pyIndex2_eq_getD glat rows cols hlat ⌊y⌋ ⌊x⌋ hy1l (by omega) hx1l (by omega))
      (pyIndex2_eq_getD glon rows cols hlon ⌊y⌋ ⌊x⌋ hy1l (by omega) hx1l (by omega)),
      lonlat_spec_formula_eval glat glon x y ⌊x⌋ ⌊y⌋ ⌊x⌋ ⌊y⌋ _ _ _ _
      rfl rfl (by simp [hcx]) (by simp [hcy]) rfl rfl rfl rfl]
  case neg =>
    have hy2u := hedge y rows hy0 hyu hcy
    rw [grid_to_lonlat_eval glat glon x y ⌊x⌋ ⌊y⌋ ⌊x⌋ (⌊y⌋ + 1) _ _ _ _
      (pyInt_eq_floor x hx0) (pyInt_eq_floor y hy0)
      (by simp [hcx]) (by rw [if_pos (fun heq => hcy heq.symm)])
      (pyIndex2_eq_getD glat rows cols hlat ⌊y⌋ ⌊x⌋ hy1l (by omega) hx1l (by omega))
      (pyIndex2_eq_getD glon rows cols hlon ⌊y⌋ ⌊x⌋ hy1l (by omega) hx1l (by omega))
      (pyIndex2_eq_getD glat rows cols hlat (⌊y⌋ + 1) ⌊x⌋ (by omega) (by omega) hx1l
        (by omega))
      (pyIndex2_eq_getD glon rows cols hlon (⌊y⌋ + 1) ⌊x⌋ (by omega) (by omega) hx1l
        (by omega)),
      lonlat_spec_formula_eval glat glon x y ⌊x⌋ ⌊y⌋ ⌊x⌋ (⌊y⌋ + 1) _ _ _ _
      rfl rfl (by simp [hcx]) (by rw [if_neg hcy]) rfl rfl rfl rfl]
  case pos =>
    have hx2u := hedge x cols hx0 hxu hcx
    rw [grid_to_lonlat_eval glat glon x y ⌊x⌋ ⌊y⌋ (⌊x⌋ + 1) ⌊y⌋ _ _ _ _
      (pyInt_eq_floor x hx0) (pyInt_eq_floor y hy0)
      (by rw [if_pos (fun heq => hcx heq.symm)]) (by simp [hcy])
      (pyIndex2_eq_getD glat rows cols hlat ⌊y⌋ ⌊x⌋ hy1l (by omega) hx1l (by omega))
      (pyIndex2_eq_getD glon rows cols hlon ⌊y⌋ ⌊x⌋ hy1l (by omega) hx1l (by omega))
      (pyIndex2_eq_getD glat rows cols hlat ⌊y⌋ (⌊x⌋ + 1) hy1l (by omega) (by omega)
        (by omega))
      (pyIndex2_eq_getD glon rows cols hlon ⌊y⌋ (⌊x⌋ + 1) hy1l (by omega) (by omega)
        (by omega)),
      lonlat_spec_formula_eval glat glon x y ⌊x⌋ ⌊y⌋ (⌊x⌋ + 1) ⌊y⌋ _ _ _ _
      rfl rfl (by rw [if_neg hcx]) (by simp [hcy]) rfl rfl rfl rfl]
  case neg =>
    have hx2u := hedge x cols hx0 hxu hcx
    have hy2u := hedge y rows hy0 hyu hcy
    rw [grid_to_lonlat_eval glat glon x y ⌊x⌋ ⌊y⌋ (⌊x⌋ + 1) (⌊y⌋ + 1) _ _ _ _
      (pyInt_eq_floor x hx0) (pyInt_eq_floor y hy0)
      (by rw [if_pos (fun heq => hcx heq.symm)])
      (by rw [if_pos (fun heq => hcy heq.symm)])
      (pyIndex2_eq_getD glat rows cols hlat ⌊y⌋ ⌊x⌋ hy1l (by omega) hx1l (by omega))
      (pyIndex2_eq_getD glon rows cols hlon ⌊y⌋ ⌊x⌋ hy1l (by omega) hx1l (by omega))
      (pyIndex2_eq_getD glat rows cols hlat (⌊y⌋ + 1) (⌊x⌋ + 1) (by omega) (by omega)
        (by omega) (by omega))
      (pyIndex2_eq_getD glon rows cols hlon (⌊y⌋ + 1) (⌊x⌋ + 1) (by omega) (by omega)
        (by omega) (by omega)),
      lonlat_spec_formula_eval glat glon x y ⌊x⌋ ⌊y⌋ (⌊x⌋ + 1) (⌊y⌋ + 1) _ _ _ _
      rfl rfl (by rw [if_neg hcx]) (by rw [if_neg hcy]) rfl rfl rfl rfl]

/-- Witness for C4 on a concrete 2×2 grid at `(x, y) = (0.5, 0.5)`: the
mapper agrees with the claim's formula, whose value here is
`(20.5, 10.5)` — the diagonal blend of corners `(0,0)` and `(1,1)`. -/
theorem grid_to_lonlat_in_bounds_formula_witness :
    grid_to_lonlat [[10, 10], [11, 11]] [[20, 21], [20, 21]] (1/2) (1/2) =
      some (41/2, 21/2) := by
  have hfl : ⌊(1/2 : ℚ)⌋ = 0 := by norm_num
  have hr5 : pyRound5 (1/2 : ℚ) = 1/2 := pyRound5_of_mul _ 50000 (by norm_num)
  have hform : lonlat_spec_formula [[10, 10], [11, 11]] [[20, 21], [20, 21]]
      (1/2) (1/2) = (41/2, 21/2) := by
    rw [lonlat_spec_formula_eval [[10, 10], [11, 11]] [[20, 21], [20, 21]]
      (1/2) (1/2) 0 0 1 1 10 20 11 21 hfl hfl
      (by rw [hr5]; norm_num) (by rw [hr5]; norm_num) rfl rfl rfl rfl]
    have e1 : (20 : ℚ) + ((21 - 20) * ((1/2) - ((0 : ℤ) : ℚ))) = 41/2 := by norm_num
    have e2 : (10 : ℚ) + ((11 - 10) * ((1/2 : ℚ) - ((0 : ℤ) : ℚ))) = 21/2 := by norm_num
    rw [e1, e2, pyRound5_of_mul (41/2) 2050000 (by norm_num),
      pyRound5_of_mul (21/2) 1050000 (by norm_num)]
  rw [grid_to_lonlat_in_bounds_formula [[10, 10], [11, 11]] [[20, 21], [20, 21]] 2 2
    (1/2) (1/2)
    (by constructor
        · rfl
        · intro row hr
          simp only [List.mem_cons, List.not_mem_nil, or_false] at hr
          rcases hr with h | h <;> subst h <;> rfl)
    (by constructor
        · rfl
        · intro row hr
          simp only [List.mem_cons, List.not_mem_nil, or_false] at hr
          rcases hr with h | h <;> subst h <;> rfl)
    (by norm_num) (by norm_num) (by norm_num) (by norm_num), hform]

/-- Witness for C7: a concrete 4-point grid-space ring on a 1×1 grid maps to
a 4-point geographic ring, and the empty ring maps to the empty ring. -/
theorem ring_remap_preserves_count_and_order_witness :
    ([((7 : ℚ), (5 : ℚ)), (7, 5), (7, 5), (7, 5)]).length =
      ([((0 : ℚ), (0 : ℚ)), (0, 0), (0, 0), (0, 0)]).length ∧
    polygon_to_coord_array [[5]] [[7]] [] = some [] := by
  have hi0 : pyInt (0 : ℚ) = 0 := by norm_num [pyInt]
  have hr0 : pyRound5 (0 : ℚ) = 0 := pyRound5_of_mul _ 0 (by norm_num)
  have hpt : grid_to_lonlat [[5]] [[7]] 0 0 = some (7, 5) := by
    rw [grid_to_lonlat_eval [[5]] [[7]] 0 0 0 0 0 0 5 7 5 7 hi0 hi0
      (by rw [hr0]; norm_num) (by rw [hr0]; norm_num)
      (by norm_num [pyIndex2, pyIndex]) (by norm_num [pyIndex2, pyIndex])
      (by norm_num [pyIndex2, pyIndex]) (by norm_num [pyIndex2, pyIndex])]
    have e1 : (7 : ℚ) + ((7 - 7) * ((0 : ℚ) - ((0 : ℤ) : ℚ))) = 7 := by norm_num
    have e2 : (5 : ℚ) + ((5 - 5) * ((0 : ℚ) - ((0 : ℤ) : ℚ))) = 5 := by norm_num
    rw [e1, e2, pyRound5_of_mul 7 700000 (by norm_num),
      pyRound5_of_mul 5 500000 (by norm_num)]
  have h : polygon_to_coord_array [[5]] [[7]]
      [((0 : ℚ), (0 : ℚ)), (0, 0), (0, 0), (0, 0)] =
      some [((7 : ℚ), (5 : ℚ)), (7, 5), (7, 5), (7, 5)] := by
    simp [polygon_to_coord_array, mapOrFail, hpt]
  exact ⟨(ring_remap_preserves_count_and_order [[5]] [[7]] _ _ h).1,
         (ring_remap_preserves_count_and_order [[5]] [[7]] _ _ h).2.2⟩

/-! ## Round trip of the MultiPolygon string through the `json.loads` model -/

/-- A rational that is an exact multiple of `1/100000` — the form of every
coordinate produced by `_grid_to_lonlat` (`round(_, 5)`). -/
def Fix5 (q : ℚ) : Prop := ∃ k : ℤ, q = (k : ℚ) / 100000

/-- The JSON value of one remapped ring: an array of two-element
`[longitude, latitude]` arrays. -/
def ringJ (ring : List (ℚ × ℚ)) : JVal :=
  JVal.arr (ring.map fun p => JVal.arr [JVal.num p.1, JVal.num p.2])

theorem digitChar_isDigit (d : ℕ) (h : d < 10) : (digitChar d).isDigit = true := by
  interval_cases d <;> decide

theorem digitVal_digitChar (d : ℕ) (h : d < 10) : digitVal (digitChar d) = d := by
  interval_cases d <;> decide

theorem digitChar_ne_zero (d : ℕ) (h0 : d ≠ 0) (h : d < 10) : digitChar d ≠ '0' := by
  interval_cases d
  · exact absurd rfl h0
  all_goals decide

theorem natDigits_ne_nil (n : ℕ) : natDigits n ≠ [] := by
  rw [natDigits]
  split
  · simp
  · simp only [ne_eq, List.map_eq_nil_iff, List.reverse_eq_nil_iff]
    exact Nat.digits_ne_nil_iff_ne_zero.mpr (by assumption)

theorem natDigits_all_digit (n : ℕ) : ∀ c ∈ natDigits n, c.isDigit = true := by
  intro c hc
  rw [natDigits] at hc
  split at hc
  · simp at hc
    subst hc
    decide
  · simp only [List.mem_map, List.mem_reverse] at hc
    obtain ⟨d, hd, rfl⟩ := hc
    exact digitChar_isDigit d (Nat.digits_lt_base (by norm_num) hd)

theorem foldr_digits_eq_ofDigits (L : List ℕ) (hL : ∀ d ∈ L, d < 10) :
    List.foldr (fun d acc => acc * 10 + digitVal (digitChar d)) 0 L = Nat.ofDigits 10 L := by
  induction L with
  | nil => simp [Nat.ofDigits]
  | cons d tl ih =>
    have hd : d < 10 := hL d (by simp)
    have htl : ∀ x ∈ tl, x < 10 := fun x hx => hL x (by simp [hx])
    simp only [List.foldr_cons, Nat.ofDigits_cons, ih htl, digitVal_digitChar d hd]
    ring

theorem digitsToNat_natDigits (n : ℕ) : digitsToNat (natDigits n) = n := by
  rw [natDigits]
  split
  · subst n
    decide
  · rw [digitsToNat, List.foldl_map, List.foldl_reverse]
    have h := foldr_digits_eq_ofDigits (Nat.digits 10 n)
      (fun d hd => Nat.digits_lt_base (by norm_num) hd)
    rw [h]
    exact_mod_cast Nat.ofDigits_digits 10 n

theorem natDigits_head_ne_zero (n : ℕ) (hn : n ≠ 0) (c : Char)
    (hc : (natDigits n).head? = some c) : c ≠ '0' := by
  rw [natDigits, if_neg hn] at hc
  have hnil : Nat.digits 10 n ≠ [] := Nat.digits_ne_nil_iff_ne_zero.mpr hn
  rw [List.head?_map, List.head?_reverse, List.getLast?_eq_getLast _ hnil] at hc
  simp at hc
  subst hc
  exact digitChar_ne_zero _ (Nat.getLast_digit_ne_zero 10 hn)
    (Nat.digits_lt_base (by norm_num) (List.getLast_mem hnil))

theorem natDigits_length_le (n w : ℕ) (h : n < 10 ^ w) (hw : 1 ≤ w) :
    (natDigits n).length ≤ w := by
  rw [natDigits]
  split
  · simpa using hw
  · rw [List.length_map, List.length_reverse,
      Nat.digits_len 10 n (by norm_num) (by assumption)]
    have := (Nat.lt_pow_iff_log_lt (by norm_num : 1 < 10) (by assumption)).mp h
    omega

theorem digitVal_zero_char : digitVal '0' = 0 := rfl

theorem foldl_digits_replicate_zero (t s : ℕ) :
    List.foldl (fun a c => a * 10 + digitVal c) s (List.replicate t '0') = s * 10 ^ t := by
  induction t generalizing s with
  | zero => simp
  | succ k ih =>
    rw [List.replicate_succ, List.foldl_cons, ih, digitVal_zero_char, pow_succ]
    ring

theorem digitsToNat_padLeftZeros (ds : List Char) (w : ℕ) :
    digitsToNat (padLeftZeros ds w) = digitsToNat ds := by
  rw [padLeftZeros, digitsToNat, digitsToNat, List.foldl_append,
    foldl_digits_replicate_zero]
  norm_num

theorem padLeftZeros_length (ds : List Char) (w : ℕ) (h : ds.length ≤ w) :
    (padLeftZeros ds w).length = w := by
  simp [padLeftZeros]
  omega

theorem padLeftZeros_all_digit (ds : List Char) (w : ℕ)
    (h : ∀ c ∈ ds, c.isDigit = true) : ∀ c ∈ padLeftZeros ds w, c.isDigit = true := by
  intro c hc
  rcases List.mem_append.mp hc with h1 | h2
  · rw [List.eq_of_mem_replicate h1]
    decide
  · exact h c h2

theorem takeWhile_zero_eq_replicate (l : List Char) :
    l.takeWhile (fun c => c = '0') =
      List.replicate (l.takeWhile (fun c => c = '0')).length '0' := by
  apply List.eq_replicate_of_mem
  intro c hc
  have h := List.mem_takeWhile_imp hc
  simpa using h

theorem dropTrailingZeros_spec (ds : List Char) :
    ds = dropTrailingZeros ds ++
      List.replicate (ds.reverse.takeWhile (fun c => c = '0')).length '0' := by
  conv_lhs => rw [← List.reverse_reverse ds,
    ← List.takeWhile_append_dropWhile (fun c => c = '0') ds.reverse]
  rw [List.reverse_append, dropTrailingZeros]
  congr 1
  conv_lhs => rw [takeWhile_zero_eq_replicate]
  rw [List.reverse_replicate]

theorem dropTrailingZeros_sublist (ds : List Char) (c : Char)
    (hc : c ∈ dropTrailingZeros ds) : c ∈ ds := by
  rw [dropTrailingZeros_spec ds]
  exact List.mem_append.mpr (Or.inl hc)

theorem digitsToNat_append_replicate_zero (a : List Char) (t : ℕ) :
    digitsToNat (a ++ List.replicate t '0') = digitsToNat a * 10 ^ t := by
  rw [digitsToNat, digitsToNat, List.foldl_append, foldl_digits_replicate_zero]

/-- Everything the number parser needs to know about the fractional digit
block: its characters are digits, it is nonempty, and its value scaled by
its own length equals `fr / 100000`. -/
theorem fracDigits5_spec (fr : ℕ) (h : fr < 100000) :
    (∀ c ∈ fracDigits5 fr, c.isDigit = true) ∧ fracDigits5 fr ≠ [] ∧
    (digitsToNat (fracDigits5 fr) : ℚ) / (10 : ℚ) ^ (fracDigits5 fr).length =
      (fr : ℚ) / 100000 := by
  have hlen5 : (natDigits fr).length ≤ 5 := natDigits_length_le fr 5 (by norm_num [h])
      (by norm_num)
  set ds5 := padLeftZeros (natDigits fr) 5 with hds5
  have hds5len : ds5.length = 5 := padLeftZeros_length _ _ hlen5
  have hds5dig : ∀ c ∈ ds5, c.isDigit = true :=
    padLeftZeros_all_digit _ _ (natDigits_all_digit fr)
  have hds5val : digitsToNat ds5 = fr := by
    rw [hds5, digitsToNat_padLeftZeros, digitsToNat_natDigits]
  set t := (ds5.reverse.takeWhile (fun c => c = '0')).length with ht
  have hsplit : ds5 = dropTrailingZeros ds5 ++ List.replicate t '0' :=
    dropTrailingZeros_spec ds5
  have hval : digitsToNat (dropTrailingZeros ds5) * 10 ^ t = fr := by
    rw [← hds5val]
    conv_rhs => rw [hsplit]
    rw [digitsToNat_append_replicate_zero]
  have htle : (dropTrailingZeros ds5).length + t = 5 := by
    have := congrArg List.length hsplit
    simp only [List.length_append, List.length_replicate] at this
    omega
  have hunfold : fracDigits5 fr =
      if dropTrailingZeros ds5 = [] then ['0'] else dropTrailingZeros ds5 := rfl
  by_cases hnil : dropTrailingZeros ds5 = []
  · have hfr0 : fr = 0 := by
      rw [← hval, hnil]
      simp [digitsToNat]
    rw [hunfold, if_pos hnil]
    refine ⟨?_, by simp, ?_⟩
    · intro c hc
      simp only [List.mem_singleton] at hc
      subst hc
      decide
    · rw [hfr0]
      have hz : digitsToNat ['0'] = 0 := by decide
      rw [hz]
      norm_num
  · rw [hunfold, if_neg hnil]
    refine ⟨fun c hc => hds5dig c (dropTrailingZeros_sublist ds5 c hc), hnil, ?_⟩
    have hq : (fr : ℚ) = (digitsToNat (dropTrailingZeros ds5) : ℚ) * 10 ^ t := by
      rw [← hval]
      push_cast
      ring
    rw [hq, div_eq_div_iff (by positivity) (by norm_num)]
    have h5 : (100000 : ℚ) = 10 ^ (5 : ℕ) := by norm_num
    have hlt : (dropTrailingZeros ds5).length + t = 5 := htle
    rw [h5, ← hlt, pow_add]
    ring

/-- Decomposition of the rendered float: for a 5-decimal fixed-point value,
`repr` prints sign, integer part, `'.'`, fractional digit block. -/
theorem pyFloatRepr_eq (q : ℚ) (hq : Fix5 q) :
    ∃ ip fr : ℕ, fr < 100000 ∧ |q| = (ip : ℚ) + (fr : ℚ) / 100000 ∧
      (pyFloatRepr q).data =
        (if q < 0 then ['-'] else []) ++ natDigits ip ++ ['.'] ++ fracDigits5 fr := by
  obtain ⟨k, hk⟩ := hq
  have habs : |q| * 100000 = ((k.natAbs : ℤ) : ℚ) := by
    rw [hk, abs_div, abs_of_pos (by norm_num : (0 : ℚ) < 100000)]
    rw [div_mul_cancel₀ _ (by norm_num : (100000 : ℚ) ≠ 0)]
    rw [← Int.cast_abs, Int.abs_eq_natAbs]
  have hnk : (((⌊|q| * 100000⌋).toNat : ℕ) : ℚ) = |q| * 100000 := by
    rw [habs, Int.floor_intCast, Int.toNat_natCast]
    exact (Int.cast_natCast k.natAbs).symm
  refine ⟨(⌊|q| * 100000⌋).toNat / 100000, (⌊|q| * 100000⌋).toNat % 100000,
    Nat.mod_lt _ (by norm_num), ?_, rfl⟩
  have hsplit : (⌊|q| * 100000⌋).toNat =
      100000 * ((⌊|q| * 100000⌋).toNat / 100000) + (⌊|q| * 100000⌋).toNat % 100000 :=
    (Nat.div_add_mod _ 100000).symm
  have habs2 : |q| = (((⌊|q| * 100000⌋).toNat : ℕ) : ℚ) / 100000 := by
    rw [hnk]
    field_simp
  have hc : (100000 : ℚ) * (((⌊|q| * 100000⌋).toNat / 100000 : ℕ) : ℚ) +
      (((⌊|q| * 100000⌋).toNat % 100000 : ℕ) : ℚ) =
      (((⌊|q| * 100000⌋).toNat : ℕ) : ℚ) := by
    exact_mod_cast congrArg (fun m : ℕ => (m : ℚ)) hsplit.symm
  rw [habs2]
  field_simp
  linarith [hc]

theorem takeWhile_dropWhile_append (p : Char → Bool) (ds rest : List Char)
    (hds : ∀ c ∈ ds, p c = true) (hrest : ∀ c, rest.head? = some c → p c = false) :
    (ds ++ rest).takeWhile p = ds ∧ (ds ++ rest).dropWhile p = rest := by
  induction ds with
  | nil =>
    simp only [List.nil_append]
    cases rest with
    | nil => simp
    | cons r t =>
      have hr : p r = false := hrest r rfl
      simp [List.takeWhile_cons, List.dropWhile_cons, hr]
  | cons d tl ih =>
    have hd : p d = true := hds d (by simp)
    have htl := ih (fun c hc => hds c (by simp [hc]))
    simp [List.takeWhile_cons, List.dropWhile_cons, hd, htl.1, htl.2]

theorem takeDigits_exact (ds rest : List Char) (hds : ∀ c ∈ ds, c.isDigit = true)
    (hrest : ∀ c, rest.head? = some c → c.isDigit = false) :
    takeDigits (ds ++ rest) = (ds, rest) := by
  have h := takeWhile_dropWhile_append Char.isDigit ds rest hds hrest
  rw [takeDigits, h.1, h.2]

theorem parseSign_not_neg (cs : List Char) (h : ∀ t, cs ≠ '-' :: t) :
    parseSign cs = (false, cs) := by
  rw [parseSign.eq_def]
  split
  · exact absurd rfl (h _)
  · rfl

/-- The number parser inverts `pyFloatRepr` on every 5-decimal fixed-point
rational, leaving an unconsumed rest that starts with `','` or `']'` (the
only characters that follow a number in the MultiPolygon string). -/
theorem parseJsonNumber_repr (q : ℚ) (hq : Fix5 q) (rest : List Char)
    (hrest : ∀ c, rest.head? = some c → c = ',' ∨ c = ']') :
    parseJsonNumber ((pyFloatRepr q).data ++ rest) = some (q, rest) := by
  obtain ⟨ip, fr, hfr, habs, hdata⟩ := pyFloatRepr_eq q hq
  obtain ⟨hfdig, hfnil, hfval⟩ := fracDigits5_spec fr hfr
  have hrestdig : ∀ c, rest.head? = some c → c.isDigit = false := by
    intro c hc
    rcases hrest c hc with rfl | rfl <;> decide
  have htdF : takeDigits (fracDigits5 fr ++ rest) = (fracDigits5 fr, rest) :=
    takeDigits_exact _ _ hfdig hrestdig
  have htdA : takeDigits (natDigits ip ++ '.' :: (fracDigits5 fr ++ rest)) =
      (natDigits ip, '.' :: (fracDigits5 fr ++ rest)) :=
    takeDigits_exact _ _ (natDigits_all_digit ip)
      (by intro c hc; simp at hc; subst hc; decide)
  have hleadok : ¬(1 < (natDigits ip).length ∧ (natDigits ip).headD '0' = '0') := by
    by_cases hip : ip = 0
    · subst hip
      rw [natDigits, if_pos rfl]
      rintro ⟨h1, _⟩
      simp at h1
    · rintro ⟨hlen, hhead⟩
      cases hnd : natDigits ip with
      | nil => exact natDigits_ne_nil ip hnd
      | cons a t =>
        have hane := natDigits_head_ne_zero ip hip a (by rw [hnd]; rfl)
        rw [hnd] at hhead
        simp at hhead
        exact hane hhead
  have hfrac : parseFracPart (digitsToNat (natDigits ip) : ℚ)
      ('.' :: (fracDigits5 fr ++ rest)) = some (|q|, rest) := by
    simp only [parseFracPart, htdF]
    rw [if_neg hfnil, digitsToNat_natDigits, hfval, habs]
  have hexp : parseExpPart |q| rest = some (|q|, rest) := by
    cases hr : rest with
    | nil => rfl
    | cons c t => rcases hrest c (by rw [hr]; rfl) with rfl | rfl <;> rfl
  rw [hdata]
  by_cases hneg : q < 0
  · rw [if_pos hneg]
    have hshape : (['-'] ++ natDigits ip ++ ['.'] ++ fracDigits5 fr) ++ rest =
        '-' :: (natDigits ip ++ '.' :: (fracDigits5 fr ++ rest)) := by simp
    rw [hshape, parseJsonNumber]
    have hsgn : parseSign ('-' :: (natDigits ip ++ '.' :: (fracDigits5 fr ++ rest))) =
        (true, natDigits ip ++ '.' :: (fracDigits5 fr ++ rest)) := rfl
    simp only [hsgn, htdA]
    rw [if_neg (natDigits_ne_nil ip), if_neg hleadok, hfrac]
    simp only [hexp]
    rw [abs_of_neg hneg]
    norm_num
  · rw [if_neg hneg]
    have hshape : (([] : List Char) ++ natDigits ip ++ ['.'] ++ fracDigits5 fr) ++ rest =
        natDigits ip ++ '.' :: (fracDigits5 fr ++ rest) := by simp
    rw [hshape, parseJsonNumber]
    have hns : ∀ t, natDigits ip ++ '.' :: (fracDigits5 fr ++ rest) ≠ '-' :: t := by
      intro t hcontra
      cases hnd : natDigits ip with
      | nil => exact natDigits_ne_nil ip hnd
      | cons a u =>
        rw [hnd] at hcontra
        simp at hcontra
        have hadig := natDigits_all_digit ip a (by rw [hnd]; simp)
        rw [hcontra.1] at hadig
        exact absurd hadig (by decide)
    have hsgn := parseSign_not_neg _ hns
    simp only [hsgn, htdA]
    rw [if_neg (natDigits_ne_nil ip), if_neg hleadok, hfrac]
    simp only [hexp]
    rw [abs_of_nonneg (le_of_not_lt hneg)]
    norm_num

/-- Character-level form of the `", "`-separated tail of a rendered ring. -/
def pointsSepChars : List (ℚ × ℚ) → List Char
  | [] => []
  | p :: tl => ',' :: ' ' :: ((pyPointStr p).data ++ pointsSepChars tl)

/-- Character-level form of the rendered hole list. -/
def ringsSepChars : List (List (ℚ × ℚ)) → List Char
  | [] => []
  | h :: tl => ',' :: ((pyRingStr h).data ++ ringsSepChars tl)

theorem pyPointStr_data (p : ℚ × ℚ) :
    (pyPointStr p).data =
      '[' :: ((pyFloatRepr p.1).data ++ ',' :: ' ' :: ((pyFloatRepr p.2).data ++ [']'])) := by
  simp [pyPointStr, String.data_append]

theorem pyRingBody_data (p : ℚ × ℚ) (tl : List (ℚ × ℚ)) :
    (pyRingBody (p :: tl)).data = (pyPointStr p).data ++ pointsSepChars tl := by
  induction tl generalizing p with
  | nil => simp [pyRingBody, pointsSepChars]
  | cons q u ih =>
    rw [show pyRingBody (p :: q :: u) = pyPointStr p ++ ", " ++ pyRingBody (q :: u) from rfl]
    simp [String.data_append, ih, pointsSepChars]

theorem pyRingStr_data_nil : (pyRingStr []).data = ['[', ']'] := rfl

theorem pyRingStr_data_cons (p : ℚ × ℚ) (tl : List (ℚ × ℚ)) :
    (pyRingStr (p :: tl)).data =
      '[' :: ((pyPointStr p).data ++ pointsSepChars tl ++ [']']) := by
  simp [pyRingStr, String.data_append, pyRingBody_data]

theorem holesBody_data (hs : List (List (ℚ × ℚ))) :
    (holesBody hs).data = ringsSepChars hs := by
  induction hs with
  | nil => rfl
  | cons h tl ih => simp [holesBody, String.data_append, ih, ringsSepChars]

theorem multiPolygon_data (outer : List (ℚ × ℚ)) (holes : List (List (ℚ × ℚ))) :
    (polygon_and_holes_to_multi_polygon outer holes).data =
      '[' :: ((pyRingStr outer).data ++ ringsSepChars holes ++ [']']) := by
  simp [polygon_and_holes_to_multi_polygon, String.data_append, holesBody_data]

theorem skipWs_cons_ws (c : Char) (cs : List Char) (hc : isJsonWs c = true) :
    skipWs (c :: cs) = skipWs cs := by
  simp [skipWs, List.dropWhile_cons, hc]

theorem skipWs_cons_not (c : Char) (cs : List Char) (hc : isJsonWs c = false) :
    skipWs (c :: cs) = c :: cs := by
  simp [skipWs, List.dropWhile_cons, hc]

theorem isDigit_props (c : Char) (h : c.isDigit = true) :
    isJsonWs c = false ∧ c ≠ '[' ∧ c ≠ ']' ∧ c ≠ ',' := by
  refine ⟨?_, ?_, ?_, ?_⟩
  · simp only [isJsonWs, decide_eq_false_iff_not]
    rintro (rfl | rfl | rfl | rfl) <;> exact absurd h (by decide)
  · rintro rfl; exact absurd h (by decide)
  · rintro rfl; exact absurd h (by decide)
  · rintro rfl; exact absurd h (by decide)

theorem pyFloatRepr_head (q : ℚ) (hq : Fix5 q) :
    ∃ c0 t0, (pyFloatRepr q).data = c0 :: t0 ∧ isJsonWs c0 = false ∧
      c0 ≠ '[' ∧ c0 ≠ ']' := by
  obtain ⟨ip, fr, hfr, habs, hdata⟩ := pyFloatRepr_eq q hq
  by_cases hneg : q < 0
  · rw [hdata, if_pos hneg]
    exact ⟨'-', _, rfl, by decide, by decide, by decide⟩
  · rw [hdata, if_neg hneg]
    cases hnd : natDigits ip with
    | nil => exact absurd hnd (natDigits_ne_nil ip)
    | cons a t =>
      have ha := natDigits_all_digit ip a (by rw [hnd]; simp)
      obtain ⟨hw, hb, hc, _⟩ := isDigit_props a ha
      exact ⟨a, t ++ '.' :: fracDigits5 fr, by simp [hnd], hw, hb, hc⟩

theorem parseJsonValue_succ_ws (f : ℕ) (c : Char) (cs : List Char)
    (hc : isJsonWs c = true) :
    parseJsonValue (f + 1) (c :: cs) = parseJsonValue (f + 1) cs := by
  simp only [parseJsonValue, skipWs_cons_ws c cs hc]

theorem parseJsonValue_succ_num (f : ℕ) (c : Char) (cs : List Char)
    (hws : isJsonWs c = false) (hnb : c ≠ '[') :
    parseJsonValue (f + 1) (c :: cs) =
      (parseJsonNumber (c :: cs)).map fun qr => (JVal.num qr.1, qr.2) := by
  simp only [parseJsonValue, skipWs_cons_not c cs hws]
  split
  · next rest heq =>
    rw [List.cons_eq_cons] at heq
    exact absurd heq.1 hnb
  · rfl

theorem parseJsonValue_succ_arr (f : ℕ) (t : List Char) :
    parseJsonValue (f + 1) ('[' :: t) =
      match skipWs t with
      | ']' :: rest2 => some (JVal.arr [], rest2)
      | _ =>
        (parseJsonValue f t).bind fun vr =>
        (parseJsonElems f vr.2).bind fun er =>
        some (JVal.arr (vr.1 :: er.1), er.2) := by
  simp only [parseJsonValue, skipWs_cons_not '[' t (by decide)]

theorem parseJsonValue_arr_close (f : ℕ) (u : List Char) :
    parseJsonValue (f + 1) ('[' :: ']' :: u) = some (JVal.arr [], u) := by
  rw [parseJsonValue_succ_arr, skipWs_cons_not ']' u (by decide)]
  rfl

theorem parseJsonValue_arr_cons (f : ℕ) (c : Char) (t : List Char)
    (hws : isJsonWs c = false) (hc : c ≠ ']') :
    parseJsonValue (f + 1) ('[' :: c :: t) =
      (parseJsonValue f (c :: t)).bind fun vr =>
      (parseJsonElems f vr.2).bind fun er =>
      some (JVal.arr (vr.1 :: er.1), er.2) := by
  rw [parseJsonValue_succ_arr, skipWs_cons_not c t hws]
  split
  · next rest2 heq =>
    rw [List.cons_eq_cons] at heq
    exact absurd heq.1 hc
  · rfl

theorem parseJsonElems_comma (f : ℕ) (t : List Char) :
    parseJsonElems (f + 1) (',' :: t) =
      (parseJsonValue f t).bind fun vr =>
      (parseJsonElems f vr.2).bind fun er =>
      some (vr.1 :: er.1, er.2) := by
  simp only [parseJsonElems, skipWs_cons_not ',' t (by decide)]

theorem parseJsonElems_close (f : ℕ) (t : List Char) :
    parseJsonElems (f + 1) (']' :: t) = some ([], t) := by
  simp only [parseJsonElems, skipWs_cons_not ']' t (by decide)]

theorem parseJsonValue_num_repr (f : ℕ) (q : ℚ) (hq : Fix5 q) (rest : List Char)
    (hrest : ∀ c, rest.head? = some c → c = ',' ∨ c = ']') :
    parseJsonValue (f + 1) ((pyFloatRepr q).data ++ rest) = some (JVal.num q, rest) := by
  obtain ⟨c0, t0, hX, hw, hb, _⟩ := pyFloatRepr_head q hq
  rw [hX, List.cons_append, parseJsonValue_succ_num f c0 (t0 ++ rest) hw hb,
    ← List.cons_append, ← hX, parseJsonNumber_repr q hq rest hrest]
  rfl

theorem parseJsonValue_point (p : ℚ × ℚ) (h1 : Fix5 p.1) (h2 : Fix5 p.2)
    (rest : List Char) (_hrest : ∀ c, rest.head? = some c → c = ',' ∨ c = ']')
    (f : ℕ) (hf : 3 ≤ f) :
    parseJsonValue f ((pyPointStr p).data ++ rest) =
      some (JVal.arr [JVal.num p.1, JVal.num p.2], rest) := by
  obtain ⟨g, rfl⟩ : ∃ g, f = g + 3 := ⟨f - 3, by omega⟩
  rw [pyPointStr_data]
  obtain ⟨c0, t0, hX, hw, hb, hc⟩ := pyFloatRepr_head p.1 h1
  have hshape : ('[' :: ((pyFloatRepr p.1).data ++ ',' :: ' ' ::
      ((pyFloatRepr p.2).data ++ [']']))) ++ rest =
      '[' :: c0 :: (t0 ++ (',' :: ' ' :: ((pyFloatRepr p.2).data ++ ']' :: rest))) := by
    rw [hX]
    simp
  rw [hshape, show g + 3 = (g + 2) + 1 from rfl,
    parseJsonValue_arr_cons (g + 2) c0 _ hw hc]
  have hnum1 : parseJsonValue (g + 2)
      (c0 :: (t0 ++ (',' :: ' ' :: ((pyFloatRepr p.2).data ++ ']' :: rest)))) =
      some (JVal.num p.1, ',' :: ' ' :: ((pyFloatRepr p.2).data ++ ']' :: rest)) := by
    have h := parseJsonValue_num_repr (g + 1) p.1 h1
      (',' :: ' ' :: ((pyFloatRepr p.2).data ++ ']' :: rest))
      (by intro c hcx; simp at hcx; exact Or.inl hcx.symm)
    rw [hX] at h
    simpa using h
  rw [hnum1]
  simp only [Option.some_bind]
  rw [show g + 2 = (g + 1) + 1 from rfl, parseJsonElems_comma (g + 1) _,
    parseJsonValue_succ_ws g ' ' _ (by decide),
    parseJsonValue_num_repr g p.2 h2 (']' :: rest)
      (by intro c hcx; simp at hcx; exact Or.inr hcx.symm)]
  simp only [Option.some_bind]
  rw [parseJsonElems_close g rest]
  rfl

theorem pointsSepChars_head (tl : List (ℚ × ℚ)) (rest : List Char) :
    ∀ c, (pointsSepChars tl ++ ']' :: rest).head? = some c → c = ',' ∨ c = ']' := by
  intro c hc
  cases tl with
  | nil => simp [pointsSepChars] at hc; exact Or.inr hc.symm
  | cons p u => simp [pointsSepChars] at hc; exact Or.inl hc.symm

theorem parseJsonElems_points (pts : List (ℚ × ℚ)) :
    ∀ (f : ℕ), pts.length + 3 ≤ f →
    (∀ p ∈ pts, Fix5 p.1 ∧ Fix5 p.2) → ∀ (rest : List Char),
    parseJsonElems f (pointsSepChars pts ++ ']' :: rest) =
      some (pts.map fun p => JVal.arr [JVal.num p.1, JVal.num p.2], rest) := by
  induction pts with
  | nil =>
    intro f hf hfix rest
    obtain ⟨g, rfl⟩ : ∃ g, f = g + 1 := ⟨f - 1, by omega⟩
    simp [pointsSepChars, parseJsonElems_close]
  | cons p tl ih =>
    intro f hf hfix rest
    obtain ⟨g, rfl⟩ : ∃ g, f = (g + 1) + 1 := ⟨f - 2, by omega⟩
    have hshape : (pointsSepChars (p :: tl) ++ ']' :: rest) =
        ',' :: ' ' :: ((pyPointStr p).data ++ (pointsSepChars tl ++ ']' :: rest)) := by
      simp [pointsSepChars]
    rw [hshape, parseJsonElems_comma (g + 1) _,
      parseJsonValue_succ_ws g ' ' _ (by decide),
      parseJsonValue_point p (hfix p (by simp)).1 (hfix p (by simp)).2 _
        (pointsSepChars_head tl rest) (g + 1) (by simp at hf; omega)]
    simp only [Option.some_bind]
    rw [ih (g + 1) (by simp at hf; omega) (fun q hq => hfix q (by simp [hq])) rest]
    rfl

/-- The minimal fuel for parsing one rendered ring. -/
def ringNeed : List (ℚ × ℚ) → ℕ
  | [] => 1
  | ring => ring.length + 4

/-- The minimal fuel for parsing the rendered hole-ring tail. -/
def ringsNeed : List (List (ℚ × ℚ)) → ℕ
  | [] => 1
  | h :: tl => 1 + max (ringNeed h) (ringsNeed tl)

theorem parseJsonValue_ring (ring : List (ℚ × ℚ))
    (hfix : ∀ p ∈ ring, Fix5 p.1 ∧ Fix5 p.2) (rest : List Char)
    (f : ℕ) (hf : ringNeed ring ≤ f) :
    parseJsonValue f ((pyRingStr ring).data ++ rest) = some (ringJ ring, rest) := by
  cases ring with
  | nil =>
    obtain ⟨g, rfl⟩ : ∃ g, f = g + 1 := ⟨f - 1, by
      have : ringNeed ([] : List (ℚ × ℚ)) = 1 := rfl
      omega⟩
    rw [pyRingStr_data_nil]
    exact parseJsonValue_arr_close g rest
  | cons p tl =>
    have hneed : (p :: tl).length + 4 ≤ f := hf
    obtain ⟨g, rfl⟩ : ∃ g, f = g + 1 := ⟨f - 1, by omega⟩
    rw [pyRingStr_data_cons]
    have hshape : ('[' :: ((pyPointStr p).data ++ pointsSepChars tl ++ [']'])) ++ rest =
        '[' :: ((pyPointStr p).data ++ (pointsSepChars tl ++ ']' :: rest)) := by
      simp
    rw [hshape, pyPointStr_data, List.cons_append,
      parseJsonValue_arr_cons g '[' _ (by decide) (by decide), ← List.cons_append,
      ← pyPointStr_data,
      parseJsonValue_point p (hfix p (by simp)).1 (hfix p (by simp)).2 _
        (pointsSepChars_head tl rest) g (by simp at hneed; omega)]
    simp only [Option.some_bind]
    rw [parseJsonElems_points tl g (by simp at hneed; omega)
      (fun q hq => hfix q (by simp [hq])) rest]
    simp [ringJ]

theorem ringsSepChars_head (hs : List (List (ℚ × ℚ))) (rest : List Char) :
    ∀ c, (ringsSepChars hs ++ ']' :: rest).head? = some c → c = ',' ∨ c = ']' := by
  intro c hc
  cases hs with
  | nil => simp [ringsSepChars] at hc; exact Or.inr hc.symm
  | cons h u => simp [ringsSepChars] at hc; exact Or.inl hc.symm

theorem parseJsonElems_rings (hs : List (List (ℚ × ℚ))) :
    ∀ (f : ℕ), ringsNeed hs ≤ f →
    (∀ h ∈ hs, ∀ p ∈ h, Fix5 p.1 ∧ Fix5 p.2) → ∀ (rest : List Char),
    parseJsonElems f (ringsSepChars hs ++ ']' :: rest) = some (hs.map ringJ, rest) := by
  induction hs with
  | nil =>
    intro f hf hfix rest
    obtain ⟨g, rfl⟩ : ∃ g, f = g + 1 := ⟨f - 1, by
      have : ringsNeed ([] : List (List (ℚ × ℚ))) = 1 := rfl
      omega⟩
    simp [ringsSepChars, parseJsonElems_close]
  | cons h tl ih =>
    intro f hf hfix rest
    have hneed : 1 + max (ringNeed h) (ringsNeed tl) ≤ f := hf
    obtain ⟨g, rfl⟩ : ∃ g, f = g + 1 := ⟨f - 1, by omega⟩
    have hshape : (ringsSepChars (h :: tl) ++ ']' :: rest) =
        ',' :: ((pyRingStr h).data ++ (ringsSepChars tl ++ ']' :: rest)) := by
      simp [ringsSepChars]
    rw [hshape, parseJsonElems_comma g _,
      parseJsonValue_ring h (hfix h (by simp)) _ g (by omega)]
    simp only [Option.some_bind]
    rw [ih g (by omega) (fun x hx => hfix x (by simp [hx])) rest]
    rfl

theorem pyRingStr_head (ring : List (ℚ × ℚ)) :
    ∃ t, (pyRingStr ring).data = '[' :: t := by
  cases ring with
  | nil => exact ⟨[']'], pyRingStr_data_nil⟩
  | cons p tl => exact ⟨_, pyRingStr_data_cons p tl⟩

theorem parseJsonValue_multi (outer : List (ℚ × ℚ)) (holes : List (List (ℚ × ℚ)))
    (hfo : ∀ p ∈ outer, Fix5 p.1 ∧ Fix5 p.2)
    (hfh : ∀ h ∈ holes, ∀ p ∈ h, Fix5 p.1 ∧ Fix5 p.2) (rest : List Char)
    (f : ℕ) (hf : 1 + max (ringNeed outer) (ringsNeed holes) ≤ f) :
    parseJsonValue f ((polygon_and_holes_to_multi_polygon outer holes).data ++ rest) =
      some (JVal.arr (ringJ outer :: holes.map ringJ), rest) := by
  obtain ⟨g, rfl⟩ : ∃ g, f = g + 1 := ⟨f - 1, by omega⟩
  rw [multiPolygon_data]
  have hshape : ('[' :: ((pyRingStr outer).data ++ ringsSepChars holes ++ [']'])) ++ rest =
      '[' :: ((pyRingStr outer).data ++ (ringsSepChars holes ++ ']' :: rest)) := by
    simp
  obtain ⟨t, ht⟩ := pyRingStr_head outer
  rw [hshape, ht, List.cons_append,
    parseJsonValue_arr_cons g '[' _ (by decide) (by decide), ← List.cons_append, ← ht,
    parseJsonValue_ring outer hfo _ g (by omega)]
  simp only [Option.some_bind]
  rw [parseJsonElems_rings holes g (by omega) hfh rest]
  rfl

theorem len_pointsSepChars (tl : List (ℚ × ℚ)) :
    tl.length ≤ (pointsSepChars tl).length := by
  induction tl with
  | nil => simp [pointsSepChars]
  | cons p u ih =>
    simp only [pointsSepChars, List.length_cons, List.length_append]
    omega

theorem ringNeed_le_len (ring : List (ℚ × ℚ)) :
    ringNeed ring ≤ (pyRingStr ring).data.length + 1 := by
  cases ring with
  | nil =>
    rw [pyRingStr_data_nil]
    decide
  | cons p tl =>
    rw [pyRingStr_data_cons]
    have h1 := len_pointsSepChars tl
    have h2 : 4 ≤ (pyPointStr p).data.length := by
      rw [pyPointStr_data]
      simp
      omega
    show (p :: tl).length + 4 ≤ _ + 1
    simp only [List.length_cons, List.length_append]
    omega

theorem ringsNeed_le_len (hs : List (List (ℚ × ℚ))) :
    ringsNeed hs ≤ (ringsSepChars hs).length + 1 := by
  induction hs with
  | nil => simp [ringsNeed, ringsSepChars]
  | cons h tl ih =>
    have h1 := ringNeed_le_len h
    show 1 + max (ringNeed h) (ringsNeed tl) ≤ _
    have hmax : max (ringNeed h) (ringsNeed tl) ≤
        (pyRingStr h).data.length + (ringsSepChars tl).length + 1 :=
      max_le (by omega) (by omega)
    simp only [ringsSepChars, List.length_cons, List.length_append]
    omega

theorem parseJson_multiPolygon (outer : List (ℚ × ℚ)) (holes : List (List (ℚ × ℚ)))
    (hfo : ∀ p ∈ outer, Fix5 p.1 ∧ Fix5 p.2)
    (hfh : ∀ h ∈ holes, ∀ p ∈ h, Fix5 p.1 ∧ Fix5 p.2) :
    parseJson (polygon_and_holes_to_multi_polygon outer holes) =
      some (JVal.arr (ringJ outer :: holes.map ringJ)) := by
  rw [parseJson]
  have hbound : 1 + max (ringNeed outer) (ringsNeed holes) ≤
      (polygon_and_holes_to_multi_polygon outer holes).length + 1 := by
    have hlen : (polygon_and_holes_to_multi_polygon outer holes).length =
        (polygon_and_holes_to_multi_polygon outer holes).data.length := rfl
    rw [hlen, multiPolygon_data]
    have h1 := ringNeed_le_len outer
    have h2 := ringsNeed_le_len holes
    have hmax : max (ringNeed outer) (ringsNeed holes) ≤
        (pyRingStr outer).data.length + (ringsSepChars holes).length + 1 :=
      max_le (by omega) (by omega)
    simp only [List.length_cons, List.length_append]
    omega
  have hmain := parseJsonValue_multi outer holes hfo hfh []
    ((polygon_and_holes_to_multi_polygon outer holes).length + 1) hbound
  rw [List.append_nil] at hmain
  rw [hmain]
  rfl

/-- Claim C10: rendering the outer ring and holes to the MultiPolygon
coordinate string with Python `str` and parsing it back with `json.loads`
is the identity on the data: the parse yields exactly the array whose first
element is the outer ring followed by the holes in order, each point a
two-element `[longitude, latitude]` array (`ringJ`).  The points are the
5-decimal fixed-point rationals (`Fix5`) that the coordinate remapping
produces. -/
theorem multi_polygon_string_roundtrip (outer : List (ℚ × ℚ))
    (holes : List (List (ℚ × ℚ)))
    (hfix : ∀ ring ∈ outer :: holes, ∀ p ∈ ring, Fix5 p.1 ∧ Fix5 p.2) :
    parseJson (polygon_and_holes_to_multi_polygon outer holes) =
      some (JVal.arr ((outer :: holes).map ringJ)) := by
  rw [List.map_cons]
  exact parseJson_multiPolygon outer holes (hfix outer (by simp))
    (fun h hh => hfix h (by simp [hh]))

/-- Witness for C10 at a concrete outer ring `[[1.5, 2.0]]` with one hole
`[[0.0, 1.0]]`. -/
theorem multi_polygon_string_roundtrip_witness :
    parseJson (polygon_and_holes_to_multi_polygon [((3 : ℚ)/2, (2 : ℚ))]
        [[((0 : ℚ), (1 : ℚ))]]) =
      some (JVal.arr (([((3 : ℚ)/2, (2 : ℚ))] :: [[((0 : ℚ), (1 : ℚ))]]).map ringJ)) :=
  multi_polygon_string_roundtrip [((3 : ℚ)/2, (2 : ℚ))] [[((0 : ℚ), (1 : ℚ))]] (by
    intro ring hr p hp
    simp only [List.mem_cons, List.mem_singleton, List.not_mem_nil, or_false] at hr
    rcases hr with rfl | rfl
    · simp only [List.mem_singleton] at hp
      subst hp
      exact ⟨⟨150000, by norm_num⟩, ⟨200000, by norm_num⟩⟩
    · simp only [List.mem_singleton] at hp
      subst hp
      exact ⟨⟨0, by norm_num⟩, ⟨100000, by norm_num⟩⟩)

theorem Fix5_pyRound5 (q : ℚ) : Fix5 (pyRound5 q) :=
  ⟨roundHalfEven (q * 100000), rfl⟩

theorem grid_to_lonlat_fix5 (glat glon : Grid2) (x y : ℚ) (pr : ℚ × ℚ)
    (h : grid_to_lonlat glat glon x y = some pr) : Fix5 pr.1 ∧ Fix5 pr.2 := by
  rw [grid_to_lonlat] at h
  cases h1 : pyIndex2 glat (pyInt y) (pyInt x) with
  | none => rw [h1] at h; simp at h
  | some lat1 =>
    rw [h1] at h
    cases h2 : pyIndex2 glon (pyInt y) (pyInt x) with
    | none => rw [h2] at h; simp at h
    | some lon1 =>
      rw [h2] at h
      cases h3 : pyIndex2 glat (if (pyInt y : ℚ) ≠ pyRound5 y then pyInt y + 1 else pyInt y)
          (if (pyInt x : ℚ) ≠ pyRound5 x then pyInt x + 1 else pyInt x) with
      | none => rw [h3] at h; simp at h
      | some lat2 =>
        rw [h3] at h
        cases h4 : pyIndex2 glon (if (pyInt y : ℚ) ≠ pyRound5 y then pyInt y + 1 else pyInt y)
            (if (pyInt x : ℚ) ≠ pyRound5 x then pyInt x + 1 else pyInt x) with
        | none => rw [h4] at h; simp at h
        | some lon2 =>
          rw [h4] at h
          simp only [Option.some_bind, Option.some_inj] at h
          rw [← h]
          exact ⟨Fix5_pyRound5 _, Fix5_pyRound5 _⟩

theorem mapOrFail_mem {α β : Type} (f : α → Option β) :
    ∀ (l : List α) (out : List β), mapOrFail f l = some out →
      ∀ b ∈ out, ∃ a ∈ l, f a = some b
  | [], out, h, b, hb => by
    simp [mapOrFail] at h
    subst h
    simp at hb
  | a :: rest, out, h, b, hb => by
    simp only [mapOrFail] at h
    cases hfa : f a with
    | none => rw [hfa] at h; simp at h
    | some b0 =>
      rw [hfa] at h
      cases hrest : mapOrFail f rest with
      | none => rw [hrest] at h; simp at h
      | some bs =>
        rw [hrest] at h
        simp at h
        subst h
        rcases List.mem_cons.mp hb with rfl | hb2
        · exact ⟨a, by simp, hfa⟩
        · obtain ⟨a2, ha2, hf2⟩ := mapOrFail_mem f rest bs hrest b hb2
          exact ⟨a2, by simp [ha2], hf2⟩

theorem polygon_to_coord_array_fix5 (glat glon : Grid2) (poly : GridRing)
    (out : List (ℚ × ℚ)) (h : polygon_to_coord_array glat glon poly = some out) :
    ∀ p ∈ out, Fix5 p.1 ∧ Fix5 p.2 := by
  intro p hp
  obtain ⟨a, _, hfa⟩ := mapOrFail_mem _ poly out h p hp
  exact grid_to_lonlat_fix5 glat glon a.1 a.2 p hfa

theorem bandFeatures_mem (glat glon : Grid2) (c : String) :
    ∀ (paths : List GridPath) (fs : List Feature),
      bandFeatures glat glon c paths = some fs → ∀ f ∈ fs,
      ∃ path ∈ paths, ¬ path.isEmpty = true ∧
        mkFeatureOpt glat glon c (path.headD []) path.tail = some f
  | [], fs, h, f, hf => by
    simp [bandFeatures] at h
    subst h
    simp at hf
  | path :: rest, fs, h, f, hf => by
    rw [bandFeatures] at h
    by_cases hp : path.isEmpty
    · rw [if_pos hp] at h
      obtain ⟨p2, hp2, hn2, hm2⟩ := bandFeatures_mem glat glon c rest fs h f hf
      exact ⟨p2, by simp [hp2], hn2, hm2⟩
    · rw [if_neg hp] at h
      cases hmk : mkFeatureOpt glat glon c (path.headD []) path.tail with
      | none => rw [hmk] at h; simp at h
      | some feat =>
        rw [hmk] at h
        cases hrest : bandFeatures glat glon c rest with
        | none => rw [hrest] at h; simp at h
        | some feats =>
          rw [hrest] at h
          simp at h
          subst h
          rcases List.mem_cons.mp hf with rfl | hf2
          · exact ⟨path, by simp, hp, hmk⟩
          · obtain ⟨p2, hp2, hn2, hm2⟩ :=
              bandFeatures_mem glat glon c rest feats hrest f hf2
            exact ⟨p2, by simp [hp2], hn2, hm2⟩

theorem buildFeatures_mem (glat glon : Grid2) :
    ∀ (bands : List Band) (fs : List Feature),
      buildFeatures glat glon bands = some fs → ∀ f ∈ fs,
      ∃ band ∈ bands, ∃ path ∈ band.paths, ¬ path.isEmpty = true ∧
        mkFeatureOpt glat glon band.color (path.headD []) path.tail = some f
  | [], fs, h, f, hf => by
    simp [buildFeatures] at h
    subst h
    simp at hf
  | band :: rest, fs, h, f, hf => by
    rw [buildFeatures] at h
    cases h1 : bandFeatures glat glon band.color band.paths with
    | none => rw [h1] at h; simp at h
    | some fs1 =>
      rw [h1] at h
      cases h2 : buildFeatures glat glon rest with
      | none => rw [h2] at h; simp at h
      | some fs2 =>
        rw [h2] at h
        simp at h
        subst h
        rcases List.mem_append.mp hf with hf1 | hf2
        · obtain ⟨p, hp, hn, hm⟩ := bandFeatures_mem glat glon band.color band.paths fs1 h1 f hf1
          exact ⟨band, by simp, p, hp, hn, hm⟩
        · obtain ⟨b2, hb2, p, hp, hn, hm⟩ := buildFeatures_mem glat glon rest fs2 h2 f hf2
          exact ⟨b2, by simp [hb2], p, hp, hn, hm⟩

/-- Claim C3: under the contouring capability's data-model guarantee that
every Ring has at least one point, a Path with no polygons at all (an empty
`to_polygons()` list — the only way an outer ring can be absent or map to
zero points, since remapping preserves point count) is skipped entirely and
contributes no Feature; consequently every Feature in the output has a
MultiPolygon whose single polygon's outer ring contains at least one
point — no degenerate Polygon is ever emitted. -/
theorem no_degenerate_polygon_emitted (glat glon : Grid2) (bands : List Band)
    (fs : List Feature)
    (hring : ∀ band ∈ bands, ∀ path ∈ band.paths, ∀ ring ∈ path, ring ≠ ([] : GridRing))
    (hrun : buildFeatures glat glon bands = some fs) :
    (∀ color paths, bandFeatures glat glon color (([] : GridPath) :: paths) =
      bandFeatures glat glon color paths) ∧
    ∀ f ∈ fs, ∃ outerJ restJ, f.coordinates = JVal.arr [JVal.arr (outerJ :: restJ)] ∧
      ∃ v vs, outerJ = JVal.arr (v :: vs) := by
  refine ⟨fun color paths => by simp [bandFeatures], ?_⟩
  intro f hf
  obtain ⟨band, hband, path, hpath, hne, hmk⟩ :=
    buildFeatures_mem glat glon bands fs hrun f hf
  cases hpc : path with
  | nil => rw [hpc] at hne; simp at hne
  | cons r holes =>
    rw [hpc] at hmk
    simp only [List.headD_cons, List.tail_cons] at hmk
    rw [mkFeatureOpt] at hmk
    cases h0 : polygon_to_coord_array glat glon r with
    | none => rw [h0] at hmk; simp at hmk
    | some out =>
      rw [h0] at hmk
      simp only [Option.some_bind] at hmk
      cases h1 : mapOrFail (polygon_to_coord_array glat glon) holes with
      | none => rw [h1] at hmk; simp at hmk
      | some houts =>
        rw [h1] at hmk
        simp only [Option.some_bind] at hmk
        have hfixout : ∀ p ∈ out, Fix5 p.1 ∧ Fix5 p.2 :=
          polygon_to_coord_array_fix5 glat glon r out h0
        have hfixholes : ∀ h ∈ houts, ∀ p ∈ h, Fix5 p.1 ∧ Fix5 p.2 := by
          intro ho hho p hp
          obtain ⟨a, _, hfa⟩ := mapOrFail_mem _ holes houts h1 ho hho
          exact polygon_to_coord_array_fix5 glat glon a ho hfa p hp
        have hparse := parseJson_multiPolygon out houts hfixout hfixholes
        rw [hparse] at hmk
        simp at hmk
        have hrne : r ≠ [] := hring band hband path hpath r (by rw [hpc]; simp)
        have houtne : out ≠ [] := by
          intro hcon
          have hl := mapOrFail_length _ _ _ h0
          rw [hcon] at hl
          simp at hl
          exact hrne (List.length_eq_zero.mp hl.symm)
        cases hoc : out with
        | nil => exact absurd hoc houtne
        | cons o1 orest =>
          refine ⟨ringJ out, houts.map ringJ, ?_, ?_⟩
          · rw [← hmk]
          · exact ⟨JVal.arr [JVal.num o1.1, JVal.num o1.2],
              orest.map fun p => JVal.arr [JVal.num p.1, JVal.num p.2],
              by rw [ringJ, hoc, List.map_cons]⟩

/-- Witness for C3: a band whose only path has an empty polygon list is
skipped, producing an empty feature list on a 1×1 grid. -/
theorem no_degenerate_polygon_emitted_witness :
    (∀ color paths, bandFeatures [[5]] [[7]] color (([] : GridPath) :: paths) =
      bandFeatures [[5]] [[7]] color paths) ∧
    ∀ f ∈ ([] : List Feature), ∃ outerJ restJ,
      f.coordinates = JVal.arr [JVal.arr (outerJ :: restJ)] ∧
      ∃ v vs, outerJ = JVal.arr (v :: vs) :=
  no_degenerate_polygon_emitted [[5]] [[7]] [⟨"#0000ff", [([] : GridPath)]⟩] []
    (by intro band hband path hpath ring hr
        simp at hband
        rw [hband] at hpath
        simp at hpath
        rw [hpath] at hr
        simp at hr)
    rfl

end WrfGeoJson
